import Mathlib

/-!
Verification development for the `cargo-gluegun` plugin orchestration engine
(`crates/cargo-gluegun/src/lib.rs`).

The source manipulates `serde_json::Value` configuration trees, computes
destination crate names/paths, builds plugin commands, and drives an
orchestration loop writing a JSON handshake to each plugin process.  We embed
those functions shallowly: JSON values become the inductive `JValue`, UTF-8
paths become lists of components, fallible Rust functions returning
`anyhow::Result` become `Except String`, and the process-effecting parts
(extractor invocation, spawn, stdin write/close, wait) are modelled by an
explicit event trace driven by an environment `Oracle`.  JSON numbers are
modelled as integers (the merge and dispatch logic never inspects numeric
payloads, and IEEE floating point is out of scope).
-/

set_option maxHeartbeats 1000000

namespace CargoGluegun

/-- model of `serde_json::Value`: null, boolean, number, string, array, or
string-keyed mapping object.  Objects are association lists with (as in
`serde_json::Map`) at most one entry per key in any value produced by
deserialization. -/
inductive JValue where
  | null : JValue
  | bool : Bool → JValue
  | num : Int → JValue
  | str : String → JValue
  | arr : List JValue → JValue
  | obj : List (String × JValue) → JValue

/-- kind tag of a JSON value, used to state the merge kind-mismatch rules. -/
inductive JKind where
  | null | bool | num | str | arr | obj
deriving DecidableEq, Repr

/-- kind of a `JValue`. -/
def JValue.kind : JValue → JKind
  | .null => .null
  | .bool _ => .bool
  | .num _ => .num
  | .str _ => .str
  | .arr _ => .arr
  | .obj _ => .obj

/-- lookup of a key in an association-list object, returning the first
binding (models `serde_json::Map::get`). -/
def getKey : List (String × JValue) → String → Option JValue
  | [], _ => none
  | (k, v) :: rest, key => if k = key then some v else getKey rest key

/-- model of `serde_json::Map::insert`: replace the binding of `k` if
present, otherwise append a new binding. -/
def insertKV : List (String × JValue) → String → JValue → List (String × JValue)
  | [], k, v => [(k, v)]
  | (k', v') :: rest, k, v =>
    if k' = k then (k, v) :: rest else (k', v') :: insertKV rest k v

/-- object union from `merge_values` (src/lib.rs lines 317-325): clone the
workspace map and insert every package entry into it, so package bindings
override workspace bindings. -/
def mergeObj (workspaceMap packageMap : List (String × JValue)) : List (String × JValue) :=
  packageMap.foldl (fun merged kv => insertKV merged kv.1 kv.2) workspaceMap

/-- lookup of a string key on an arbitrary value (models
`serde_json::Value::get`, which returns `None` on non-objects). -/
def jget : JValue → String → Option JValue
  | .obj kvs, key => getKey kvs key
  | _, _ => none

mutual
/-- a size measure on JSON values, used as parser fuel. -/
def jsize : JValue → Nat
  | .null => 1
  | .bool _ => 1
  | .num _ => 1
  | .str _ => 1
  | .arr xs => 1 + jsizeList xs
  | .obj kvs => 1 + jsizeKVs kvs
/-- size of a list of array elements. -/
def jsizeList : List JValue → Nat
  | [] => 0
  | v :: vs => jsize v + jsizeList vs + 1
/-- size of a list of object members. -/
def jsizeKVs : List (String × JValue) → Nat
  | [] => 0
  | m :: ms => jsize m.2 + jsizeKVs ms + 1
end

/-- character list of a string literal, used for keyword tokens. -/
def lit (s : String) : List Char := s.data

/-- opening-brace character, kept out of string literals. -/
def lbrace : Char := Char.ofNat 123

/-- closing-brace character, kept out of string literals. -/
def rbrace : Char := Char.ofNat 125

/-- apostrophe character (U+0027), as checked by
`customized_plugin_command`. -/
def apos : Char := Char.ofNat 39

/-- hexadecimal digit characters (lowercase), for modelling escape forms. -/
def hexDigit (n : Nat) : Char :=
  if n < 10 then Char.ofNat (48 + n) else Char.ofNat (87 + n)

/-- two-digit lowercase hex rendering of a byte value. -/
def hex2 (n : Nat) : List Char := [hexDigit (n / 16), hexDigit (n % 16)]

/-- escape of one character as performed by `serde_json` when serializing a
JSON string: quote, backslash and control characters are escaped, everything
else is passed through. -/
def jsonEscapeChar (c : Char) : List Char :=
  if c = Char.ofNat 34 then ['\\', Char.ofNat 34]
  else if c = '\\' then ['\\', '\\']
  else if c = '\n' then ['\\', 'n']
  else if c = '\t' then ['\\', 't']
  else if c = Char.ofNat 13 then ['\\', 'r']
  else if c = Char.ofNat 8 then ['\\', 'b']
  else if c = Char.ofNat 12 then ['\\', 'f']
  else if c.toNat < 32 then '\\' :: 'u' :: '0' :: '0' :: hex2 c.toNat
  else [c]

/-- serde_json escaping extended over a character list. -/
def jsonEscape (s : List Char) : List Char :=
  s.foldr (fun c acc => jsonEscapeChar c ++ acc) []

/-- rendering of a JSON string literal, quotes included. -/
def renderStr (s : String) : List Char :=
  Char.ofNat 34 :: jsonEscape s.data ++ [Char.ofNat 34]

/-- decimal digits (most significant first) of a natural number. -/
def natDigits (n : Nat) : List Char :=
  if h : n < 10 then [Char.ofNat (48 + n)]
  else natDigits (n / 10) ++ [Char.ofNat (48 + n % 10)]
decreasing_by exact Nat.div_lt_self (by omega) (by omega)

/-- decimal rendering of an integer, as `serde_json` prints JSON numbers
that are integers. -/
def renderNum : Int → List Char
  | .ofNat m => natDigits m
  | .negSucc m => '-' :: natDigits (m + 1)

mutual
/-- compact JSON rendering of a value, modelling `serde_json::to_string`
(also the `Display` instance of `serde_json::Value`, used in merge error
messages): no whitespace, `,` between items, `:` after keys. -/
def renderJ : JValue → List Char
  | .null => lit "null"
  | .bool true => lit "true"
  | .bool false => lit "false"
  | .num n => renderNum n
  | .str s => renderStr s
  | .arr [] => ['[', ']']
  | .arr (x :: xs) => '[' :: (renderJ x ++ renderArrTail xs)
  | .obj [] => [lbrace, rbrace]
  | .obj (m :: ms) => lbrace :: (renderMember m ++ renderObjTail ms)
/-- rendering of the remaining array elements followed by `]`. -/
def renderArrTail : List JValue → List Char
  | [] => [']']
  | x :: xs => ',' :: (renderJ x ++ renderArrTail xs)
/-- rendering of one object member `"key":value`. -/
def renderMember : String × JValue → List Char
  | (k, v) => renderStr k ++ ':' :: renderJ v
/-- rendering of the remaining object members followed by the closing
brace. -/
def renderObjTail : List (String × JValue) → List Char
  | [] => [rbrace]
  | m :: ms => ',' :: (renderMember m ++ renderObjTail ms)
end

/-- compact JSON serialization as a `String` (models
`serde_json::to_string` and `Display for serde_json::Value`). -/
def renderJson (v : JValue) : String := ⟨renderJ v⟩

/-- the error message built by `merge_values` for two values of different
kinds (src/lib.rs lines 336-340); it names both conflicting values using
their JSON `Display` rendering. -/
def mergeErrMsg (workspaceValue packageValue : JValue) : String :=
  "cannot merge workspace/package configuration:\n    workspace: " ++
    renderJson workspaceValue ++ "\n    package: " ++ renderJson packageValue

/-- embedding of `merge_values` (src/lib.rs lines 305-342): null merges with
null; two numbers, booleans, strings, or arrays yield the package value;
two objects take the union of keys with package entries overriding; any
other (mixed-kind) combination is an error naming both values. -/
def mergeValues : JValue → JValue → Except String JValue
  | .null, .null => .ok .null
  | .num _, .num b => .ok (.num b)
  | .bool _, .bool b => .ok (.bool b)
  | .str _, .str b => .ok (.str b)
  | .arr _, .arr b => .ok (.arr b)
  | .obj w, .obj p => .ok (.obj (mergeObj w p))
  | w, p => .error (mergeErrMsg w p)

/-- embedding of `merge_metadata` (src/lib.rs lines 290-300). -/
def mergeMetadata : Option JValue → Option JValue → Except String JValue
  | some w, some p => mergeValues w p
  | some w, none => .ok w
  | none, some p => .ok p
  | none, none => .ok .null

/-- model of an absolute UTF-8 filesystem path (`camino::Utf8PathBuf`) as
its list of components after the root: `/ws/foo/Cargo.toml` is
`⟨["ws", "foo", "Cargo.toml"]⟩` and the root `/` is `⟨[]⟩`. -/
structure UPath where
  comps : List String
deriving DecidableEq, Repr

/-- model of `Utf8Path::parent`: drop the final component; the root has no
parent. -/
def UPath.parent (p : UPath) : Option UPath :=
  match p.comps with
  | [] => none
  | _ :: _ => some ⟨p.comps.dropLast⟩

/-- model of `Utf8Path::join` with a single-component relative path. -/
def UPath.join (p : UPath) (name : String) : UPath :=
  ⟨p.comps ++ [name]⟩

/-- model of `Utf8Path::join` with a multi-component relative path (used
for `manifest_dir.join("src/lib.rs")`). -/
def UPath.joinRel (p : UPath) (rel : List String) : UPath :=
  ⟨p.comps ++ rel⟩

/-- textual rendering of a path (`Display` of `Utf8PathBuf`), used in error
messages. -/
def renderUPath (p : UPath) : String :=
  match p.comps with
  | [] => "/"
  | _ => p.comps.foldl (fun acc c => acc ++ "/" ++ c) ""

/-- model of a `cargo_metadata::Package` as used by this crate: its name,
manifest path, optional external-source marker (`package.source`, present
exactly for non-local packages), and `package.metadata` JSON. -/
structure Package where
  name : String
  manifestPath : UPath
  source : Option String
  metadata : JValue

/-- the `DestinationPath` enum (src/lib.rs lines 344-349), deserialized
with `rename_all = "lowercase"`. -/
inductive DestinationPath where
  | child | sibling
deriving DecidableEq, Repr

/-- model of `serde_json::from_value::<DestinationPath>`: with
`rename_all = "lowercase"` it accepts exactly the strings `"child"` and
`"sibling"` and rejects every other value. -/
def deserializeDestinationPath : JValue → Except String DestinationPath
  | .str s =>
    if s = "child" then .ok .child
    else if s = "sibling" then .ok .sibling
    else .error ("invalid value for DestinationPath: " ++ renderJson (.str s))
  | v => .error ("invalid value for DestinationPath: " ++ renderJson v)

/-- the parsed `destination-path` configuration entry of
`dest_crate_name_and_path`: absent defaults to Child, present values go
through deserialization. -/
def destinationPolicy (gluegunMetadata : JValue) : Except String DestinationPath :=
  match jget gluegunMetadata "destination-path" with
  | some v => deserializeDestinationPath v
  | none => .ok .child

/-- embedding of `dest_crate_name_and_path` (src/lib.rs lines 258-287):
read `destination-path` (defaulting to Child when absent), name the crate
`<package>-<plugin>`, pick the manifest's parent (Child) or grandparent
(Sibling) directory, failing with an error naming the manifest path when it
does not exist, and join the crate name onto it. -/
def destCrateNameAndPath (plugin : String) (gluegunMetadata : JValue)
    (pkg : Package) : Except String (String × UPath) :=
  match destinationPolicy gluegunMetadata with
  | .error e => .error e
  | .ok dp =>
    match (match dp with
           | .child => pkg.manifestPath.parent
           | .sibling => pkg.manifestPath.parent.bind UPath.parent) with
    | none =>
      .error ("cannot compute parent path for crate at `" ++
        renderUPath pkg.manifestPath ++ "`")
    | some pp =>
      .ok (pkg.name ++ "-" ++ plugin, pp.join (pkg.name ++ "-" ++ plugin))

/-- model of a `std::process::Command`: program name and argument list (the
working-directory and stdio configuration are handled in the dispatch
trace). -/
structure JCommand where
  program : String
  args : List String
deriving DecidableEq, Repr

/-- test whether the pattern matches at the head of `s`, returning the
remainder after the pattern. -/
def matchesAt : List Char → List Char → Option (List Char)
  | [], s => some s
  | _ :: _, [] => none
  | p :: ps, c :: cs => if c = p then matchesAt ps cs else none

/-- fuelled scan replacing every leftmost non-overlapping occurrence of
`pat` by `rep` (the semantics of Rust `str::replace` for non-empty
patterns). -/
def replaceFuel : Nat → List Char → List Char → List Char → List Char
  | 0, s, _, _ => s
  | _ + 1, [], _, _ => []
  | fuel + 1, c :: cs, pat, rep =>
    match matchesAt pat (c :: cs) with
    | some rest => rep ++ replaceFuel fuel rest pat rep
    | none => c :: replaceFuel fuel cs pat rep

/-- model of Rust `str::replace` (all occurrences, leftmost first). -/
def replaceAll (s pat rep : String) : String :=
  ⟨replaceFuel s.data.length s.data pat.data rep.data⟩

/-- model of Rust `str::contains(char)`. -/
def containsChar (s : String) (c : Char) : Bool :=
  s.data.contains c

/-- helper for splitting on whitespace: accumulate the current word
(reversed) while scanning. -/
def wordsAux : List Char → List Char → List String
  | [], acc => if acc.isEmpty then [] else [⟨acc.reverse⟩]
  | c :: cs, acc =>
    if c.isWhitespace then
      if acc.isEmpty then wordsAux cs [] else (⟨acc.reverse⟩ : String) :: wordsAux cs []
    else wordsAux cs (c :: acc)

/-- model of Rust `str::split_whitespace`: the non-empty maximal runs of
non-whitespace characters. -/
def splitWs (s : String) : List String := wordsAux s.data []

/-- the literal template-placeholder string `{plugin}`. -/
def pluginPlaceholder : String := "\x7bplugin\x7d"

/-- embedding of `Builder::customized_plugin_command` (src/lib.rs lines
215-242): absent `plugin-command` key yields no command; a non-string value
is an error; otherwise `{plugin}` is substituted, a result containing an
apostrophe or containing no words is rejected, and the first whitespace word
becomes the program with the remaining words as arguments. -/
def customizedPluginCommand (gluegunMetadata : JValue) (plugin : String) :
    Except String (Option JCommand) :=
  match jget gluegunMetadata "plugin-command" with
  | none => .ok none
  | some (.str pluginCommand) =>
    let s := replaceAll pluginCommand pluginPlaceholder plugin
    if containsChar s apos then
      .error ("`gluegun.plugin_command` cannot contain `" ++
        String.singleton apos ++ "` characters (FIXME)")
    else
      match splitWs s with
      | [] => .error "expected at least one word in `gluegun.plugin_command`"
      | word0 :: rest => .ok (some { program := word0, args := rest })
  | some _ =>
    .error "expected a string for workspace configuration `gluegun.plugin_command`"

/-- embedding of `Builder::default_plugin_command` (src/lib.rs lines
202-213): the customized command when one is configured, otherwise the
literal executable `gluegun-<plugin>` with no arguments. -/
def defaultPluginCommand (gluegunMetadata : JValue) (plugin : String) :
    Except String JCommand :=
  match customizedPluginCommand gluegunMetadata plugin with
  | .error e => .error e
  | .ok (some c) => .ok c
  | .ok none => .ok { program := "gluegun-" ++ plugin, args := [] }

/-- escape of one character as performed by Rust's `Debug` formatting of a
string (`char::escape_debug`): quote, backslash, `\n`, `\t`, `\r` get
two-character escapes and other control characters the `\u{..}` form. -/
def rustEscapeChar (c : Char) : List Char :=
  if c = Char.ofNat 34 then ['\\', Char.ofNat 34]
  else if c = '\\' then ['\\', '\\']
  else if c = '\n' then ['\\', 'n']
  else if c = '\t' then ['\\', 't']
  else if c = Char.ofNat 13 then ['\\', 'r']
  else if c.toNat < 32 then '\\' :: 'u' :: lbrace :: hex2 c.toNat ++ [rbrace]
  else [c]

/-- Rust `Debug` rendering of a string (or of a `Utf8PathBuf`, whose `Debug`
instance quotes its string form), as produced by the `{:?}` format
specifier: the escaped contents between double quotes. -/
def rustDebugStr (s : String) : String :=
  ⟨Char.ofNat 34 :: s.data.foldr (fun c acc => rustEscapeChar c ++ acc) [] ++ [Char.ofNat 34]⟩

/-- embedding of the `write_data` closure of `Builder::execute_plugin`
(src/lib.rs lines 179-193): the concatenation of its eight `writeln!`
lines, with `idl` and `metadata` already serialized by
`serde_json::to_string` and the crate name and path printed with `{:?}`. -/
def writeData (idlStr metaStr crateName cratePathStr : String) : String :=
  "\x7b\n" ++
  "  \"idl\": " ++ idlStr ++ ",\n" ++
  "  \"metadata\": " ++ metaStr ++ ",\n" ++
  "  \"dest_crate\": \x7b\n" ++
  "    \"crate_name\": " ++ rustDebugStr crateName ++ ",\n" ++
  "    \"path\": " ++ rustDebugStr cratePathStr ++ "\n" ++
  "  \x7d\n" ++
  "\x7d\n"

/-- observable external actions of one orchestration cycle, in the order
the code performs them: invoking the IDL extractor
(`gluegun_idl::Parser::parse_crate_named`), spawning the plugin process,
writing the handshake to its stdin, closing stdin (the `write_data` closure
dropping the `ChildStdin`), and waiting for the child. -/
inductive Event where
  | extractIdl : String → UPath → UPath → Event
  | spawnPlugin : JCommand → Event
  | writeHandshake : String → Event
  | closeStdin : Event
  | waitChild : Event
deriving DecidableEq, Repr

/-- results supplied by the environment for the externally-effecting steps
of a cycle: the IDL extractor's outcome, whether the spawn succeeds, whether
the child's stdin handle is available, whether writing the handshake
succeeds, and the outcome of waiting (an exit code on success, `0` meaning
a successful exit status). -/
structure Oracle where
  extract : String → UPath → UPath → Except String JValue
  spawn : JCommand → Except String Unit
  stdinAvailable : Bool
  writeResult : Except String Unit
  waitResult : Except String Int

/-- `anyhow::Context::with_context`: prefix an error with the description
of the failed operation. -/
def withCtx (ctx e : String) : String := ctx ++ ": " ++ e

/-- `Display` of a `std::process::ExitStatus` with the given code. -/
def statusDisplay (code : Int) : String := "exit status: " ++ toString code

/-- embedding of `Builder::execute_plugin` (src/lib.rs lines 143-200): build
the command with the injected builder, append the trailing `gg-<plugin>`
argument, spawn, take stdin, write the handshake (closing stdin when the
`write_data` closure returns), and wait for the child, recording each
external action as an event. -/
def executePluginModel (O : Oracle) (builder : JValue → String → Except String JCommand)
    (plugin : String) (gluegunMetadata idl metadata : JValue)
    (crateName : String) (cratePath : UPath) : List Event × Except String Int :=
  match builder gluegunMetadata plugin with
  | .error e => ([], .error (withCtx "creating plugin command" e))
  | .ok cmd0 =>
    let cmd : JCommand := { program := cmd0.program, args := cmd0.args ++ ["gg-" ++ plugin] }
    match O.spawn cmd with
    | .error e => ([.spawnPlugin cmd], .error (withCtx ("spawning gluegun-" ++ plugin) e))
    | .ok _ =>
      if O.stdinAvailable then
        let hs := writeData (renderJson idl) (renderJson metadata)
          crateName (renderUPath cratePath)
        match O.writeResult with
        | .error e =>
          ([.spawnPlugin cmd, .writeHandshake hs, .closeStdin],
           .error (withCtx ("writing data to gluegun-" ++ plugin) e))
        | .ok _ =>
          match O.waitResult with
          | .error e =>
            ([.spawnPlugin cmd, .writeHandshake hs, .closeStdin, .waitChild],
             .error (withCtx ("waiting for gluegun-" ++ plugin) e))
          | .ok status =>
            ([.spawnPlugin cmd, .writeHandshake hs, .closeStdin, .waitChild], .ok status)
      else ([.spawnPlugin cmd], .error "failed to take stdin")

/-- embedding of `Builder::apply_plugin` (src/lib.rs lines 87-141): reject
non-local packages, extract the IDL from `src/lib.rs` under the manifest
directory, merge the `gluegun` configuration and its plugin-scoped subtree
across the two scopes, resolve the destination crate, run the plugin, and
fail when its exit status is unsuccessful.  The `.parent().unwrap()` on the
manifest path is modelled as an error on the (never-occurring) root
manifest. -/
def applyPluginModel (O : Oracle) (builder : JValue → String → Except String JCommand)
    (plugin : String) (workspaceMetadata : JValue) (pkg : Package) :
    List Event × Except String Unit :=
  if pkg.source.isSome then
    ([], .error (pkg.name ++ ": can only process local packages"))
  else
    match pkg.manifestPath.parent with
    | none => ([], .error "panicked: manifest path has no parent directory")
    | some manifestDir =>
      let srcLibRs := manifestDir.joinRel ["src", "lib.rs"]
      let extractEv := Event.extractIdl pkg.name manifestDir srcLibRs
      match O.extract pkg.name manifestDir srcLibRs with
      | .error e =>
        ([extractEv],
         .error (withCtx ("extracting interface from `" ++ renderUPath srcLibRs ++ "`") e))
      | .ok idl =>
        let gluegunWorkspaceMetadata := jget workspaceMetadata "gluegun"
        let gluegunPackageMetadata := jget pkg.metadata "gluegun"
        match mergeMetadata gluegunWorkspaceMetadata gluegunPackageMetadata with
        | .error e =>
          ([extractEv], .error (withCtx "merging workspace and package metadata" e))
        | .ok gluegunMetadata =>
          let pluginWorkspaceMetadata := gluegunWorkspaceMetadata.bind (fun v => jget v plugin)
          let pluginPackageMetadata := gluegunPackageMetadata.bind (fun v => jget v plugin)
          match mergeMetadata pluginWorkspaceMetadata pluginPackageMetadata with
          | .error e =>
            ([extractEv], .error (withCtx "merging workspace and package metadata" e))
          | .ok pluginMetadata =>
            match destCrateNameAndPath plugin gluegunMetadata pkg with
            | .error e =>
              ([extractEv],
               .error (withCtx "computing destination crate name and path" e))
            | .ok (crateName, cratePath) =>
              let (evs, r) := executePluginModel O builder plugin gluegunMetadata idl
                pluginMetadata crateName cratePath
              match r with
              | .error e =>
                (extractEv :: evs,
                 .error (withCtx ("executing plugin `" ++ plugin ++ "`") e))
              | .ok status =>
                if status = 0 then (extractEv :: evs, .ok ())
                else
                  (extractEv :: evs,
                   .error ("gluegun-" ++ plugin ++ " failed with code " ++
                     statusDisplay status))

/-- inner loop of `Builder::execute` (src/lib.rs line 79-81): run each
plugin in order against one package, stopping at the first failure; the
result also records which (package, plugin) cycles were started. -/
def runPluginsFor (step : Package → String → Except String Unit) (pkg : Package) :
    List String → List (Package × String) × Except String Unit
  | [] => ([], .ok ())
  | pl :: pls =>
    match step pkg pl with
    | .error e => ([(pkg, pl)], .error e)
    | .ok _ =>
      let (t, r) := runPluginsFor step pkg pls
      ((pkg, pl) :: t, r)

/-- outer loop of `Builder::execute` (src/lib.rs lines 78-82): run every
plugin for every selected package in nested order, stopping at the first
failing cycle. -/
def runPackages (step : Package → String → Except String Unit) :
    List Package → List String → List (Package × String) × Except String Unit
  | [], _ => ([], .ok ())
  | p :: ps, plugins =>
    let (t1, r1) := runPluginsFor step p plugins
    match r1 with
    | .error e => (t1, .error e)
    | .ok _ =>
      let (t2, r2) := runPackages step ps plugins
      (t1 ++ t2, r2)

/-- embedding of the body of `Builder::execute` after CLI and metadata
resolution (src/lib.rs lines 70-84): empty selection and empty plugin list
are rejected before any cycle, then the nested loops run with `?`
propagation. -/
def executeModel (step : Package → String → Except String Unit)
    (selected : List Package) (plugins : List String) :
    List (Package × String) × Except String Unit :=
  if selected.isEmpty then
    ([], .error "no packages selected -- you may have misspelled the package name?")
  else if plugins.isEmpty then
    ([], .error "no plugins specified")
  else runPackages step selected plugins

/-- linear first-failure scan over a list of (package, plugin) cycles: the
reference behavior the nested driver loops are proved equal to. -/
def processPairs (step : Package → String → Except String Unit) :
    List (Package × String) → List (Package × String) × Except String Unit
  | [] => ([], .ok ())
  | pr :: rest =>
    match step pr.1 pr.2 with
    | .error e => ([pr], .error e)
    | .ok _ =>
      let (t, r) := processPairs step rest
      (pr :: t, r)

/-- JSON whitespace characters (space, tab, line feed, carriage return). -/
def jsonWs (c : Char) : Bool :=
  c = ' ' || c = '\n' || c = '\t' || c = Char.ofNat 13

/-- drop leading JSON whitespace. -/
def skipWs : List Char → List Char
  | [] => []
  | c :: cs => if jsonWs c then skipWs cs else c :: cs

/-- parse the contents of a JSON string after its opening quote, up to the
closing quote (escape-free fragment of the JSON grammar). -/
def parseStrChars : List Char → Option (List Char × List Char)
  | [] => none
  | c :: cs =>
    if c = Char.ofNat 34 then some ([], cs)
    else if c = '\\' then none
    else
      match parseStrChars cs with
      | some (s, rest) => some (c :: s, rest)
      | none => none

/-- accumulate a run of decimal digits into a natural number, returning the
remainder of the input. -/
def parseDigits (acc : Nat) : List Char → Nat × List Char
  | [] => (acc, [])
  | c :: cs =>
    if c.isDigit then parseDigits (acc * 10 + (c.toNat - 48)) cs
    else (acc, c :: cs)

mutual
/-- fuelled recursive-descent parser for JSON values (integer numbers,
escape-free strings): consumes leading whitespace, then one value, and
returns it with the unconsumed remainder. -/
def parseVal : Nat → List Char → Option (JValue × List Char)
  | 0, _ => none
  | fuel + 1, s =>
    match skipWs s with
    | [] => none
    | c :: cs =>
      if c = 'n' then
        match cs with
        | 'u' :: 'l' :: 'l' :: rest => some (.null, rest)
        | _ => none
      else if c = 't' then
        match cs with
        | 'r' :: 'u' :: 'e' :: rest => some (.bool true, rest)
        | _ => none
      else if c = 'f' then
        match cs with
        | 'a' :: 'l' :: 's' :: 'e' :: rest => some (.bool false, rest)
        | _ => none
      else if c = Char.ofNat 34 then
        match parseStrChars cs with
        | some (sc, rest) => some (.str ⟨sc⟩, rest)
        | none => none
      else if c = '-' then
        match cs with
        | d :: ds =>
          if d.isDigit then
            let (n, rest) := parseDigits (d.toNat - 48) ds
            some (.num (-(n : Int)), rest)
          else none
        | [] => none
      else if c.isDigit then
        let (n, rest) := parseDigits (c.toNat - 48) cs
        some (.num (n : Int), rest)
      else if c = '[' then
        match skipWs cs with
        | [] => parseArrElems fuel cs
        | d :: rest2 => if d = ']' then some (.arr [], rest2) else parseArrElems fuel cs
      else if c = lbrace then
        match skipWs cs with
        | d :: rest => if d = rbrace then some (.obj [], rest) else parseObjMembers fuel cs
        | [] => none
      else none
/-- parse one or more comma-separated array elements followed by `]`. -/
def parseArrElems : Nat → List Char → Option (JValue × List Char)
  | 0, _ => none
  | fuel + 1, s =>
    match parseVal fuel s with
    | none => none
    | some (v, rest) =>
      match skipWs rest with
      | ',' :: rest2 =>
        match parseArrElems fuel rest2 with
        | some (.arr vs, rest3) => some (.arr (v :: vs), rest3)
        | _ => none
      | ']' :: rest2 => some (.arr [v], rest2)
      | _ => none
/-- parse one or more `"key": value` object members followed by the closing
brace. -/
def parseObjMembers : Nat → List Char → Option (JValue × List Char)
  | 0, _ => none
  | fuel + 1, s =>
    match skipWs s with
    | c :: cs =>
      if c = Char.ofNat 34 then
        match parseStrChars cs with
        | none => none
        | some (k, rest) =>
          match skipWs rest with
          | ':' :: rest2 =>
            match parseVal fuel rest2 with
            | none => none
            | some (v, rest3) =>
              match skipWs rest3 with
              | ',' :: rest4 =>
                match parseObjMembers fuel rest4 with
                | some (.obj ms, rest5) => some (.obj ((⟨k⟩, v) :: ms), rest5)
                | _ => none
              | d :: rest4 =>
                if d = rbrace then some (.obj [(⟨k⟩, v)], rest4) else none
              | [] => none
          | _ => none
      else none
    | [] => none
end

/-- parse a complete JSON document: one value, optionally surrounded by
whitespace, with nothing else in the input. -/
def parseJson (fuel : Nat) (s : String) : Option JValue :=
  match parseVal fuel s.data with
  | some (v, rest) => if skipWs rest = [] then some v else none
  | none => none

/-- a character needing no escaping in either JSON or Rust `Debug` string
rendering: printable and neither quote nor backslash. -/
def plainChar (c : Char) : Bool :=
  decide (32 ≤ c.toNat) && !(c = Char.ofNat 34) && !(c = '\\')

/-- a string all of whose characters are plain. -/
def plainString (s : String) : Bool := s.data.all plainChar

mutual
/-- a JSON value whose strings (including object keys) are all plain. -/
def plainValue : JValue → Bool
  | .null => true
  | .bool _ => true
  | .num _ => true
  | .str s => plainString s
  | .arr xs => plainList xs
  | .obj kvs => plainKVs kvs
/-- plainness of a list of array elements. -/
def plainList : List JValue → Bool
  | [] => true
  | v :: vs => plainValue v && plainList vs
/-- plainness of a list of object members. -/
def plainKVs : List (String × JValue) → Bool
  | [] => true
  | (k, v) :: ms => plainString k && plainValue v && plainKVs ms
end

theorem getKey_insertKV (l : List (String × JValue)) (k : String) (v : JValue)
    (key : String) :
    getKey (insertKV l k v) key = if k = key then some v else getKey l key := by
  induction l with
  | nil => simp [insertKV, getKey]
  | cons hd tl ih =>
    obtain ⟨k', v'⟩ := hd
    by_cases hk : k' = k
    · subst hk
      by_cases hkey : k' = key <;> simp [insertKV, getKey, hkey]
    · by_cases hkey : k' = key
      · subst hkey
        have : ¬ (k = k') := fun h => hk h.symm
        simp [insertKV, getKey, hk, this]
      · simp [insertKV, getKey, hk, hkey, ih]

theorem getKey_eq_none_of_not_mem (l : List (String × JValue)) (k : String)
    (h : k ∉ l.map Prod.fst) : getKey l k = none := by
  induction l with
  | nil => rfl
  | cons hd tl ih =>
    simp only [List.map_cons, List.mem_cons] at h
    push_neg at h
    have hne : ¬ (hd.1 = k) := fun hc => h.1 hc.symm
    obtain ⟨k', v'⟩ := hd
    simp only [getKey, if_neg hne]
    exact ih h.2

theorem getKey_mergeObj (ws pkg : List (String × JValue)) (k : String)
    (h : (pkg.map Prod.fst).Nodup) :
    getKey (mergeObj ws pkg) k =
      match getKey pkg k with
      | some v => some v
      | none => getKey ws k := by
  induction pkg generalizing ws with
  | nil => simp [mergeObj, getKey]
  | cons hd tl ih =>
    obtain ⟨k0, v0⟩ := hd
    simp only [List.map_cons, List.nodup_cons] at h
    have step : mergeObj ws ((k0, v0) :: tl) = mergeObj (insertKV ws k0 v0) tl := rfl
    rw [step, ih _ h.2]
    by_cases hk : k0 = k
    · subst hk
      have : getKey tl k0 = none := getKey_eq_none_of_not_mem _ _ h.1
      simp [getKey, this, getKey_insertKV]
    · simp [getKey, hk, getKey_insertKV]

/-- C1: for mapping-object trees `A` (workspace scope) and `B` (package
scope), `merge_values` succeeds with an object whose keys are the union of
the two key sets; a key present in `B` maps to `B`'s value outright, and a
key present only in `A` keeps `A`'s value verbatim. -/
theorem claim1_merge_object_union (A B : List (String × JValue))
    (hB : (B.map Prod.fst).Nodup) :
    ∃ C, mergeValues (.obj A) (.obj B) = .ok (.obj C) ∧
      (∀ k, (getKey C k).isSome ↔ ((getKey A k).isSome ∨ (getKey B k).isSome)) ∧
      (∀ k v, getKey B k = some v → getKey C k = some v) ∧
      (∀ k v, getKey B k = none → getKey A k = some v → getKey C k = some v) := by
  refine ⟨mergeObj A B, rfl, ?_, ?_, ?_⟩
  · intro k
    rw [getKey_mergeObj A B k hB]
    cases h : getKey B k <;> simp
  · intro k v hB'
    rw [getKey_mergeObj A B k hB, hB']
  · intro k v hBnone hA
    rw [getKey_mergeObj A B k hB, hBnone, hA]

/-- witness for C1 at concrete mapping objects. -/
theorem claim1_merge_object_union_witness :
    ∃ C, mergeValues (.obj [("a", .num 1), ("w", .str "keep")])
        (.obj [("a", .num 2), ("b", .bool true)]) = .ok (.obj C) ∧
      (∀ k, (getKey C k).isSome ↔
        ((getKey [("a", .num 1), ("w", .str "keep")] k).isSome ∨
         (getKey [("a", .num 2), ("b", .bool true)] k).isSome)) ∧
      (∀ k v, getKey [("a", .num 2), ("b", .bool true)] k = some v → getKey C k = some v) ∧
      (∀ k v, getKey [("a", .num 2), ("b", .bool true)] k = none →
        getKey [("a", .num 1), ("w", .str "keep")] k = some v → getKey C k = some v) :=
  claim1_merge_object_union [("a", .num 1), ("w", .str "keep")]
    [("a", .num 2), ("b", .bool true)] (by decide)

/-- C4: two present values of different kinds (null counted as a kind) make
`merge_values` fail with the error naming both conflicting values in their
JSON rendering, and two present values of the same kind never fail. -/
theorem claim4_merge_kind_mismatch (a b : JValue) :
    (a.kind ≠ b.kind → mergeValues a b = .error
      ("cannot merge workspace/package configuration:\n    workspace: " ++
        renderJson a ++ "\n    package: " ++ renderJson b)) ∧
    (a.kind = b.kind → ∃ v, mergeValues a b = .ok v) := by
  constructor
  · intro h
    cases a <;> cases b <;> first
      | (exact absurd rfl h)
      | rfl
  · intro h
    cases a <;> cases b <;> first
      | (exact ⟨_, rfl⟩)
      | (exact absurd h (by simp [JValue.kind]))

/-- witness for C4: a mismatched pair fails with the naming error and a
matched pair succeeds. -/
theorem claim4_merge_kind_mismatch_witness :
    mergeValues (.obj [("a", .num 1)]) (.str "x") = .error
      ("cannot merge workspace/package configuration:\n    workspace: " ++
        renderJson (.obj [("a", .num 1)]) ++ "\n    package: " ++ renderJson (.str "x")) ∧
    (∃ v, mergeValues (.num 3) (.num 4) = .ok v) :=
  ⟨(claim4_merge_kind_mismatch (.obj [("a", .num 1)]) (.str "x")).1 (by decide),
   (claim4_merge_kind_mismatch (.num 3) (.num 4)).2 rfl⟩

/-- C9: for two present values of the same non-object kind `merge_values`
succeeds and returns the package-scope value unchanged, discarding the
workspace-scope value; in particular `merge(5,7) = 7`,
`merge(true,false) = false`, `merge("x","y") = "y"`, and a package-scope
array replaces a workspace-scope array wholesale. -/
theorem claim9_merge_same_kind_package_wins :
    (∀ a b : Int, mergeValues (.num a) (.num b) = .ok (.num b)) ∧
    (∀ a b : Bool, mergeValues (.bool a) (.bool b) = .ok (.bool b)) ∧
    (∀ a b : String, mergeValues (.str a) (.str b) = .ok (.str b)) ∧
    (∀ xs ys : List JValue, mergeValues (.arr xs) (.arr ys) = .ok (.arr ys)) ∧
    mergeValues (.num 5) (.num 7) = .ok (.num 7) ∧
    mergeValues (.bool true) (.bool false) = .ok (.bool false) ∧
    mergeValues (.str "x") (.str "y") = .ok (.str "y") :=
  ⟨fun _ _ => rfl, fun _ _ => rfl, fun _ _ => rfl, fun _ _ => rfl, rfl, rfl, rfl⟩

theorem destCrate_name_eq (plugin : String) (ggMeta : JValue) (pkg : Package)
    (name : String) (path : UPath)
    (h : destCrateNameAndPath plugin ggMeta pkg = .ok (name, path)) :
    name = pkg.name ++ "-" ++ plugin := by
  unfold destCrateNameAndPath at h
  cases hdp : destinationPolicy ggMeta with
  | error e => rw [hdp] at h; exact absurd h (by simp)
  | ok dp =>
    rw [hdp] at h
    cases hpar : (match dp with
      | DestinationPath.child => pkg.manifestPath.parent
      | DestinationPath.sibling => pkg.manifestPath.parent.bind UPath.parent) with
    | none => simp [hpar] at h
    | some pp =>
      simp only [hpar] at h
      have := (Except.ok.injEq _ _).mp h
      exact (congrArg Prod.fst this).symm

/-- C3: destination resolution names the artifact `<package>-<plugin>`;
`destination-path` absent or `"child"` joins the name onto the manifest's
directory, `"sibling"` onto that directory's parent, each failing with an
error naming the manifest path when the needed ancestor does not exist; any
other present `destination-path` value is rejected; and on the concrete
manifest `/ws/foo/Cargo.toml` with plugin `java` the Child policy yields
`/ws/foo/foo-java` and the Sibling policy `/ws/foo-java`. -/
theorem claim3_destination_resolution (plugin : String) (ggMeta : JValue)
    (pkg : Package) :
    (∀ name path, destCrateNameAndPath plugin ggMeta pkg = .ok (name, path) →
       name = pkg.name ++ "-" ++ plugin) ∧
    ((jget ggMeta "destination-path" = none ∨
        jget ggMeta "destination-path" = some (.str "child")) →
       (pkg.manifestPath.comps ≠ [] →
          destCrateNameAndPath plugin ggMeta pkg =
            .ok (pkg.name ++ "-" ++ plugin,
              ⟨pkg.manifestPath.comps.dropLast ++ [pkg.name ++ "-" ++ plugin]⟩)) ∧
       (pkg.manifestPath.comps = [] →
          destCrateNameAndPath plugin ggMeta pkg =
            .error ("cannot compute parent path for crate at `" ++
              renderUPath pkg.manifestPath ++ "`"))) ∧
    (jget ggMeta "destination-path" = some (.str "sibling") →
       (2 ≤ pkg.manifestPath.comps.length →
          destCrateNameAndPath plugin ggMeta pkg =
            .ok (pkg.name ++ "-" ++ plugin,
              ⟨pkg.manifestPath.comps.dropLast.dropLast ++
                [pkg.name ++ "-" ++ plugin]⟩)) ∧
       (pkg.manifestPath.comps.length < 2 →
          destCrateNameAndPath plugin ggMeta pkg =
            .error ("cannot compute parent path for crate at `" ++
              renderUPath pkg.manifestPath ++ "`"))) ∧
    (∀ v, jget ggMeta "destination-path" = some v → v ≠ .str "child" →
       v ≠ .str "sibling" → ∃ e, destCrateNameAndPath plugin ggMeta pkg = .error e) ∧
    (destCrateNameAndPath "java" (.obj [])
        ⟨"foo", ⟨["ws", "foo", "Cargo.toml"]⟩, none, .null⟩ =
      .ok ("foo-java", ⟨["ws", "foo", "foo-java"]⟩) ∧
     renderUPath ⟨["ws", "foo", "foo-java"]⟩ = "/ws/foo/foo-java" ∧
     destCrateNameAndPath "java" (.obj [("destination-path", .str "sibling")])
        ⟨"foo", ⟨["ws", "foo", "Cargo.toml"]⟩, none, .null⟩ =
      .ok ("foo-java", ⟨["ws", "foo-java"]⟩) ∧
     renderUPath ⟨["ws", "foo-java"]⟩ = "/ws/foo-java") := by
  refine ⟨fun name path h => destCrate_name_eq plugin ggMeta pkg name path h,
    ?_, ?_, ?_, rfl, rfl, rfl, rfl⟩
  · intro hdp
    have hchild : destinationPolicy ggMeta = Except.ok DestinationPath.child := by
      unfold destinationPolicy
      rcases hdp with h | h <;> (rw [h]; try rfl)
    constructor
    · intro hne
      obtain ⟨c, cs, hc⟩ := List.exists_cons_of_ne_nil hne
      have hp1 : pkg.manifestPath.parent = some ⟨pkg.manifestPath.comps.dropLast⟩ := by
        unfold UPath.parent
        rw [hc]
      simp [destCrateNameAndPath, hchild, hp1, UPath.join]
    · intro hnil
      have hp1 : pkg.manifestPath.parent = none := by
        unfold UPath.parent
        rw [hnil]
      simp [destCrateNameAndPath, hchild, hp1]
  · intro hdp
    have hsib : destinationPolicy ggMeta = Except.ok DestinationPath.sibling := by
      unfold destinationPolicy
      rw [hdp]
      rfl
    constructor
    · intro hlen
      have hne : pkg.manifestPath.comps ≠ [] := by
        intro h
        rw [h] at hlen
        simp at hlen
      obtain ⟨c, cs, hc⟩ := List.exists_cons_of_ne_nil hne
      have hdne : pkg.manifestPath.comps.dropLast ≠ [] := by
        intro h
        have := congrArg List.length h
        simp [List.length_dropLast] at this
        omega
      obtain ⟨d, ds, hd⟩ := List.exists_cons_of_ne_nil hdne
      have hp1 : pkg.manifestPath.parent = some ⟨pkg.manifestPath.comps.dropLast⟩ := by
        unfold UPath.parent
        rw [hc]
      have hp2 : (⟨pkg.manifestPath.comps.dropLast⟩ : UPath).parent =
          some ⟨pkg.manifestPath.comps.dropLast.dropLast⟩ := by
        unfold UPath.parent
        rw [show (⟨pkg.manifestPath.comps.dropLast⟩ : UPath).comps =
          pkg.manifestPath.comps.dropLast from rfl, hd]
      simp [destCrateNameAndPath, hsib, hp1, Option.bind, hp2, UPath.join]
    · intro hlen
      cases hc : pkg.manifestPath.comps with
      | nil =>
        have hp1 : pkg.manifestPath.parent = none := by
          unfold UPath.parent
          rw [hc]
        simp [destCrateNameAndPath, hsib, hp1, Option.bind]
      | cons c cs =>
        have hcs : cs = [] := by
          rw [hc] at hlen
          simp [List.length_cons] at hlen
          exact List.length_eq_zero.mp (by omega)
        subst hcs
        have hp1 : pkg.manifestPath.parent = some ⟨pkg.manifestPath.comps.dropLast⟩ := by
          unfold UPath.parent
          rw [hc]
        have hd0 : pkg.manifestPath.comps.dropLast = [] := by
          rw [hc]
          rfl
        have hp2 : (⟨pkg.manifestPath.comps.dropLast⟩ : UPath).parent = none := by
          unfold UPath.parent
          rw [show (⟨pkg.manifestPath.comps.dropLast⟩ : UPath).comps =
            pkg.manifestPath.comps.dropLast from rfl, hd0]
        simp [destCrateNameAndPath, hsib, hp1, Option.bind, hp2]
  · intro v hdp hnc hns
    have : ∃ e, deserializeDestinationPath v = .error e := by
      cases v with
      | str s =>
        have h1 : ¬ (s = "child") := fun h => hnc (by rw [h])
        have h2 : ¬ (s = "sibling") := fun h => hns (by rw [h])
        exact ⟨"invalid value for DestinationPath: " ++ renderJson (.str s),
          by simp [deserializeDestinationPath, h1, h2]⟩
      | null => exact ⟨_, rfl⟩
      | bool b => exact ⟨_, rfl⟩
      | num n => exact ⟨_, rfl⟩
      | arr xs => exact ⟨_, rfl⟩
      | obj ms => exact ⟨_, rfl⟩
    obtain ⟨e, he⟩ := this
    have hpol : destinationPolicy ggMeta = .error e := by
      unfold destinationPolicy
      rw [hdp]
      exact he
    exact ⟨e, by simp [destCrateNameAndPath, hpol]⟩

/-- witness for C3 at the concrete package of the specification example. -/
theorem claim3_destination_resolution_witness :
    destCrateNameAndPath "java" (.obj [])
        ⟨"foo", ⟨["ws", "foo", "Cargo.toml"]⟩, none, .null⟩ =
      .ok ("foo-java", ⟨["ws", "foo", "foo-java"]⟩) ∧
    destCrateNameAndPath "java" (.obj [("destination-path", .str "sibling")])
        ⟨"foo", ⟨["ws", "foo", "Cargo.toml"]⟩, none, .null⟩ =
      .ok ("foo-java", ⟨["ws", "foo-java"]⟩) ∧
    (∃ e, destCrateNameAndPath "java" (.obj [("destination-path", .str "nope")])
        ⟨"foo", ⟨["ws", "foo", "Cargo.toml"]⟩, none, .null⟩ = .error e) :=
  ⟨((claim3_destination_resolution "java" (.obj [])
      ⟨"foo", ⟨["ws", "foo", "Cargo.toml"]⟩, none, .null⟩).2.1 (Or.inl rfl)).1
        (by simp),
   ((claim3_destination_resolution "java" (.obj [("destination-path", .str "sibling")])
      ⟨"foo", ⟨["ws", "foo", "Cargo.toml"]⟩, none, .null⟩).2.2.1 rfl).1 (by simp),
   (claim3_destination_resolution "java" (.obj [("destination-path", .str "nope")])
      ⟨"foo", ⟨["ws", "foo", "Cargo.toml"]⟩, none, .null⟩).2.2.2.1 (.str "nope") rfl
        (by simp) (by simp)⟩

/-- C5: with no `plugin-command` key the default builder returns the
literal executable `gluegun-<plugin>` with no arguments; with a string
template, `{plugin}` is substituted and the result split on whitespace into
program and arguments (template `"my-runner {plugin} --fast"` with plugin
`java` gives program `my-runner`, arguments `["java", "--fast"]`), while a
substituted command containing an apostrophe or containing no words is
rejected with an error. -/
theorem claim5_plugin_command (meta : JValue) (plugin tmpl : String) :
    (jget meta "plugin-command" = none →
       defaultPluginCommand meta plugin =
         .ok { program := "gluegun-" ++ plugin, args := [] }) ∧
    (jget meta "plugin-command" = some (.str tmpl) →
       (containsChar (replaceAll tmpl pluginPlaceholder plugin) apos = true →
          ∃ e, defaultPluginCommand meta plugin = .error e) ∧
       (containsChar (replaceAll tmpl pluginPlaceholder plugin) apos = false →
          splitWs (replaceAll tmpl pluginPlaceholder plugin) = [] →
          ∃ e, defaultPluginCommand meta plugin = .error e) ∧
       (∀ w ws, containsChar (replaceAll tmpl pluginPlaceholder plugin) apos = false →
          splitWs (replaceAll tmpl pluginPlaceholder plugin) = w :: ws →
          defaultPluginCommand meta plugin = .ok { program := w, args := ws })) ∧
    defaultPluginCommand (.obj [("plugin-command", .str "my-runner \x7bplugin\x7d --fast")])
        "java" = .ok { program := "my-runner", args := ["java", "--fast"] } ∧
    (∃ e, defaultPluginCommand
        (.obj [("plugin-command", .str ("run" ++ String.singleton apos))]) "java" =
      .error e) := by
  refine ⟨?_, ?_, rfl, ⟨_, rfl⟩⟩
  · intro h
    simp [defaultPluginCommand, customizedPluginCommand, h]
  · intro h
    refine ⟨?_, ?_, ?_⟩
    · intro hap
      exact ⟨"`gluegun.plugin_command` cannot contain `" ++ String.singleton apos ++
          "` characters (FIXME)",
        by simp [defaultPluginCommand, customizedPluginCommand, h, hap]⟩
    · intro hap hsplit
      exact ⟨"expected at least one word in `gluegun.plugin_command`",
        by simp [defaultPluginCommand, customizedPluginCommand, h, hap, hsplit]⟩
    · intro w ws hap hsplit
      simp [defaultPluginCommand, customizedPluginCommand, h, hap, hsplit]

/-- witness for C5: the default command with no configuration, and the
specification's template example. -/
theorem claim5_plugin_command_witness :
    defaultPluginCommand .null "java" =
      .ok { program := "gluegun-java", args := [] } ∧
    defaultPluginCommand
        (.obj [("plugin-command", .str "my-runner \x7bplugin\x7d --fast")]) "java" =
      .ok { program := "my-runner", args := ["java", "--fast"] } :=
  ⟨(claim5_plugin_command .null "java" "").1 rfl,
   (((claim5_plugin_command
        (.obj [("plugin-command", .str "my-runner \x7bplugin\x7d --fast")])
        "java" "my-runner \x7bplugin\x7d --fast").2.1 rfl).2.2
      "my-runner" ["java", "--fast"] rfl rfl)⟩

theorem runPluginsFor_eq_processPairs (step : Package → String → Except String Unit)
    (pkg : Package) (plugins : List String) :
    runPluginsFor step pkg plugins =
      processPairs step (plugins.map (fun pl => (pkg, pl))) := by
  induction plugins with
  | nil => rfl
  | cons pl pls ih =>
    simp only [runPluginsFor, List.map_cons, processPairs]
    cases step pkg pl with
    | error e => rfl
    | ok u => rw [ih]

theorem processPairs_append (step : Package → String → Except String Unit)
    (l1 l2 : List (Package × String)) :
    processPairs step (l1 ++ l2) =
      (match (processPairs step l1).2 with
       | .error e => ((processPairs step l1).1, .error e)
       | .ok _ =>
          ((processPairs step l1).1 ++ (processPairs step l2).1,
           (processPairs step l2).2)) := by
  induction l1 with
  | nil => simp [processPairs]
  | cons pr rest ih =>
    simp only [List.cons_append, processPairs]
    cases step pr.1 pr.2 with
    | error e => rfl
    | ok u =>
      simp only [List.append_eq]
      rw [ih]
      cases h : (processPairs step rest).2 with
      | error e => simp
      | ok u2 => simp

theorem runPackages_eq_processPairs (step : Package → String → Except String Unit)
    (pkgs : List Package) (plugins : List String) :
    runPackages step pkgs plugins =
      processPairs step (pkgs.flatMap (fun p => plugins.map (fun pl => (p, pl)))) := by
  induction pkgs with
  | nil => rfl
  | cons p ps ih =>
    rw [List.flatMap_cons, processPairs_append]
    simp only [runPackages, runPluginsFor_eq_processPairs, ih]

theorem processPairs_trace_suffix (step : Package → String → Except String Unit)
    (l : List (Package × String)) :
    ∃ t, l = (processPairs step l).1 ++ t := by
  induction l with
  | nil => exact ⟨[], rfl⟩
  | cons pr rest ih =>
    obtain ⟨t, ht⟩ := ih
    simp only [processPairs]
    cases step pr.1 pr.2 with
    | error e => exact ⟨rest, rfl⟩
    | ok u =>
      refine ⟨t, ?_⟩
      simp only [List.cons_append]
      exact congrArg (pr :: ·) ht

theorem processPairs_ok_trace (step : Package → String → Except String Unit)
    (l : List (Package × String)) (h : (processPairs step l).2 = .ok ()) :
    (processPairs step l).1 = l := by
  induction l with
  | nil => rfl
  | cons pr rest ih =>
    simp only [processPairs] at h ⊢
    cases hs : step pr.1 pr.2 with
    | error e => rw [hs] at h; simp at h
    | ok u =>
      rw [hs] at h
      simp only [] at h ⊢
      exact congrArg (pr :: ·) (ih h)

theorem processPairs_error_trace (step : Package → String → Except String Unit)
    (l : List (Package × String)) (e : String)
    (h : (processPairs step l).2 = .error e) :
    ∃ pre pr, (processPairs step l).1 = pre ++ [pr] ∧
      (∀ q ∈ pre, step q.1 q.2 = .ok ()) ∧ step pr.1 pr.2 = .error e := by
  induction l with
  | nil => simp [processPairs] at h
  | cons pr rest ih =>
    simp only [processPairs] at h ⊢
    cases hs : step pr.1 pr.2 with
    | error e' =>
      rw [hs] at h
      simp only [] at h
      obtain rfl : e' = e := by injection h
      exact ⟨[], pr, rfl, by simp, hs⟩
    | ok u =>
      rw [hs] at h
      simp only [] at h ⊢
      obtain ⟨pre, pr', h1, h2, h3⟩ := ih h
      refine ⟨pr :: pre, pr', by rw [List.cons_append, h1], ?_, h3⟩
      intro q hq
      rcases List.mem_cons.mp hq with rfl | hq'
      · cases u; exact hs
      · exact h2 q hq'

/-- C6: with a non-empty selection and plugin list, the driver equals the
first-failure scan over the (package, plugin) pairs in nested order (outer
loop packages, inner loop plugins); the started cycles are a prefix of that
pair list; on success every pair ran; and on failure the started cycles end
exactly at the first failing pair, all earlier cycles succeeded, and that
cycle's error is returned. -/
theorem claim6_driver_loop_first_failure (step : Package → String → Except String Unit)
    (selected : List Package) (plugins : List String)
    (hsel : selected ≠ []) (hpl : plugins ≠ []) :
    executeModel step selected plugins =
      processPairs step (selected.flatMap (fun p => plugins.map (fun pl => (p, pl)))) ∧
    (∃ t, selected.flatMap (fun p => plugins.map (fun pl => (p, pl))) =
      (executeModel step selected plugins).1 ++ t) ∧
    ((executeModel step selected plugins).2 = .ok () →
      (executeModel step selected plugins).1 =
        selected.flatMap (fun p => plugins.map (fun pl => (p, pl)))) ∧
    (∀ e, (executeModel step selected plugins).2 = .error e →
      ∃ pre pr, (executeModel step selected plugins).1 = pre ++ [pr] ∧
        (∀ q ∈ pre, step q.1 q.2 = .ok ()) ∧ step pr.1 pr.2 = .error e) := by
  have hsel' : selected.isEmpty = false := by
    cases selected with
    | nil => exact absurd rfl hsel
    | cons a b => rfl
  have hpl' : plugins.isEmpty = false := by
    cases plugins with
    | nil => exact absurd rfl hpl
    | cons a b => rfl
  have hexec : executeModel step selected plugins =
      processPairs step (selected.flatMap (fun p => plugins.map (fun pl => (p, pl)))) := by
    rw [executeModel, hsel', hpl']
    simp only [Bool.false_eq_true, if_false]
    exact runPackages_eq_processPairs step selected plugins
  refine ⟨hexec, ?_, ?_, ?_⟩
  · rw [hexec]
    exact processPairs_trace_suffix step _
  · rw [hexec]
    exact processPairs_ok_trace step _
  · rw [hexec]
    exact processPairs_error_trace step _

/-- witness for C6: one package and two plugins where the first plugin
fails, so exactly one cycle is started and its error is returned. -/
theorem claim6_driver_loop_first_failure_witness :
    (executeModel
        (fun _ pl => if pl = "java" then .error "boom" else .ok ())
        [⟨"foo", ⟨["ws", "foo", "Cargo.toml"]⟩, none, .null⟩] ["java", "py"]) =
      processPairs (fun _ pl => if pl = "java" then .error "boom" else .ok ())
        ([⟨"foo", ⟨["ws", "foo", "Cargo.toml"]⟩, none, .null⟩].flatMap
          (fun p => ["java", "py"].map (fun pl => (p, pl)))) ∧
    (∃ t, ([(⟨"foo", ⟨["ws", "foo", "Cargo.toml"]⟩, none, .null⟩ : Package)].flatMap
        (fun p => ["java", "py"].map (fun pl => (p, pl)))) =
      (executeModel (fun _ pl => if pl = "java" then .error "boom" else .ok ())
        [⟨"foo", ⟨["ws", "foo", "Cargo.toml"]⟩, none, .null⟩] ["java", "py"]).1 ++ t) :=
  ⟨(claim6_driver_loop_first_failure
      (fun _ pl => if pl = "java" then .error "boom" else .ok ())
      [⟨"foo", ⟨["ws", "foo", "Cargo.toml"]⟩, none, .null⟩] ["java", "py"]
      (by simp) (by simp)).1,
   (claim6_driver_loop_first_failure
      (fun _ pl => if pl = "java" then .error "boom" else .ok ())
      [⟨"foo", ⟨["ws", "foo", "Cargo.toml"]⟩, none, .null⟩] ["java", "py"]
      (by simp) (by simp)).2.1⟩

/-- C7: an empty package selection, or a non-empty selection with an empty
plugin list, makes `execute` fail immediately with the corresponding
descriptive error and an empty cycle trace — no orchestration cycle (hence
no IDL extraction and no plugin spawn) is started. -/
theorem claim7_empty_selection_or_plugins (step : Package → String → Except String Unit)
    (selected : List Package) (plugins : List String) :
    (selected = [] →
       executeModel step selected plugins =
         ([], .error "no packages selected -- you may have misspelled the package name?")) ∧
    (selected ≠ [] → plugins = [] →
       executeModel step selected plugins = ([], .error "no plugins specified")) := by
  constructor
  · intro h
    subst h
    rfl
  · intro hsel h
    subst h
    have hsel' : selected.isEmpty = false := by
      cases selected with
      | nil => exact absurd rfl hsel
      | cons a b => rfl
    rw [executeModel, hsel']
    rfl

/-- witness for C7 at concrete empty inputs. -/
theorem claim7_empty_selection_or_plugins_witness :
    executeModel (fun _ _ => .ok ()) [] ["java"] =
      ([], .error "no packages selected -- you may have misspelled the package name?") ∧
    executeModel (fun _ _ => .ok ())
        [⟨"foo", ⟨["ws", "foo", "Cargo.toml"]⟩, none, .null⟩] [] =
      ([], .error "no plugins specified") :=
  ⟨(claim7_empty_selection_or_plugins (fun _ _ => .ok ()) [] ["java"]).1 rfl,
   (claim7_empty_selection_or_plugins (fun _ _ => .ok ())
      [⟨"foo", ⟨["ws", "foo", "Cargo.toml"]⟩, none, .null⟩] []).2 (by simp) rfl⟩

theorem UPath.parent_eq (p : UPath) (md : UPath) (h : p.parent = some md) :
    md = ⟨p.comps.dropLast⟩ ∧ p.comps ≠ [] := by
  unfold UPath.parent at h
  cases hc : p.comps with
  | nil => rw [hc] at h; exact absurd h (by simp)
  | cons c cs =>
    rw [hc] at h
    simp only [Option.some.injEq] at h
    exact ⟨h.symm, by simp⟩

theorem executePluginModel_trace_shapes (O : Oracle)
    (builder : JValue → String → Except String JCommand) (plugin : String)
    (gluegunMetadata idl metadata : JValue) (crateName : String) (cratePath : UPath) :
    (executePluginModel O builder plugin gluegunMetadata idl metadata
        crateName cratePath).1 = [] ∨
    (∃ cmd, (executePluginModel O builder plugin gluegunMetadata idl metadata
        crateName cratePath).1 = [.spawnPlugin cmd]) ∨
    (∃ cmd, (executePluginModel O builder plugin gluegunMetadata idl metadata
        crateName cratePath).1 =
          [.spawnPlugin cmd,
           .writeHandshake (writeData (renderJson idl) (renderJson metadata)
             crateName (renderUPath cratePath)), .closeStdin] ∨
      (executePluginModel O builder plugin gluegunMetadata idl metadata
        crateName cratePath).1 =
          [.spawnPlugin cmd,
           .writeHandshake (writeData (renderJson idl) (renderJson metadata)
             crateName (renderUPath cratePath)), .closeStdin, .waitChild]) := by
  unfold executePluginModel
  cases hb : builder gluegunMetadata plugin with
  | error e => simp
  | ok cmd0 =>
    cases hsp : O.spawn ⟨cmd0.program, cmd0.args ++ ["gg-" ++ plugin]⟩ with
    | error e => simp [hsp]
    | ok u =>
      by_cases hstdin : O.stdinAvailable
      · cases hw : O.writeResult with
        | error e => simp [hsp, hstdin, hw]
        | ok u2 =>
          cases hwt : O.waitResult with
          | error e => simp [hsp, hstdin, hw, hwt]
          | ok status => simp [hsp, hstdin, hw, hwt]
      · simp [hsp, hstdin]

theorem applyPluginModel_trace_shapes (O : Oracle)
    (builder : JValue → String → Except String JCommand) (plugin : String)
    (wsMeta : JValue) (pkg : Package) :
    (applyPluginModel O builder plugin wsMeta pkg).1 = [] ∨
    ∃ md evs, pkg.manifestPath.parent = some md ∧
      (applyPluginModel O builder plugin wsMeta pkg).1 =
        Event.extractIdl pkg.name md (md.joinRel ["src", "lib.rs"]) :: evs ∧
      (evs = [] ∨ (∃ cmd, evs = [.spawnPlugin cmd]) ∨
       ∃ cmd idl pm cratePath,
         (evs = [.spawnPlugin cmd,
                 .writeHandshake (writeData (renderJson idl) (renderJson pm)
                   (pkg.name ++ "-" ++ plugin) (renderUPath cratePath)), .closeStdin] ∨
          evs = [.spawnPlugin cmd,
                 .writeHandshake (writeData (renderJson idl) (renderJson pm)
                   (pkg.name ++ "-" ++ plugin) (renderUPath cratePath)), .closeStdin,
                 .waitChild])) := by
  unfold applyPluginModel
  by_cases hsrc : pkg.source.isSome
  · simp [hsrc]
  · cases hpar : pkg.manifestPath.parent with
    | none => simp [hsrc, hpar]
    | some md =>
      cases hext : O.extract pkg.name md (md.joinRel ["src", "lib.rs"]) with
      | error e => simp [hsrc, hpar, hext]
      | ok idl =>
        cases hm1 : mergeMetadata (jget wsMeta "gluegun") (jget pkg.metadata "gluegun") with
        | error e => simp [hsrc, hpar, hext, hm1]
        | ok gluegunMetadata =>
          cases hm2 : mergeMetadata
              ((jget wsMeta "gluegun").bind (fun v => jget v plugin))
              ((jget pkg.metadata "gluegun").bind (fun v => jget v plugin)) with
          | error e => simp [hsrc, hpar, hext, hm1, hm2]
          | ok pluginMetadata =>
            cases hdest : destCrateNameAndPath plugin gluegunMetadata pkg with
            | error e => simp [hsrc, hpar, hext, hm1, hm2, hdest]
            | ok pair =>
              obtain ⟨crateName, cratePath⟩ := pair
              have hname : crateName = pkg.name ++ "-" ++ plugin :=
                destCrate_name_eq plugin gluegunMetadata pkg crateName cratePath hdest
              subst hname
              have hshapes := executePluginModel_trace_shapes O builder plugin
                gluegunMetadata idl pluginMetadata (pkg.name ++ "-" ++ plugin) cratePath
              cases hexec : executePluginModel O builder plugin gluegunMetadata idl
                  pluginMetadata (pkg.name ++ "-" ++ plugin) cratePath with
              | mk evs r =>
                rw [hexec] at hshapes
                refine Or.inr ⟨md, evs, rfl, ?_, ?_⟩
                · cases r with
                  | error e => simp [hsrc, hpar, hext, hm1, hm2, hdest, hexec]
                  | ok status =>
                    by_cases hst : status = 0 <;>
                      simp [hsrc, hpar, hext, hm1, hm2, hdest, hexec, hst]
                · rcases hshapes with h | ⟨cmd, h⟩ | ⟨cmd, h | h⟩
                  · exact Or.inl h
                  · exact Or.inr (Or.inl ⟨cmd, h⟩)
                  · exact Or.inr (Or.inr ⟨cmd, idl, pluginMetadata, cratePath, Or.inl h⟩)
                  · exact Or.inr (Or.inr ⟨cmd, idl, pluginMetadata, cratePath, Or.inr h⟩)

/-- C8: a package carrying an external-source marker makes the cycle fail
with an error naming the package, with an empty event trace — before any
IDL extraction, configuration merge, destination resolution, or dispatch
step runs. -/
theorem claim8_nonlocal_package_rejected (O : Oracle)
    (builder : JValue → String → Except String JCommand) (plugin : String)
    (wsMeta : JValue) (pkg : Package) (src : String)
    (h : pkg.source = some src) :
    applyPluginModel O builder plugin wsMeta pkg =
      ([], .error (pkg.name ++ ": can only process local packages")) := by
  have hsome : pkg.source.isSome = true := by rw [h]; rfl
  simp [applyPluginModel, hsome]

/-- witness for C8: a registry package is rejected by name. -/
theorem claim8_nonlocal_package_rejected_witness :
    applyPluginModel ⟨fun _ _ _ => .ok .null, fun _ => .ok (), true, .ok (), .ok 0⟩
      defaultPluginCommand "java" .null
      ⟨"dep", ⟨["reg", "dep", "Cargo.toml"]⟩, some "registry", .null⟩ =
      ([], .error ("dep" ++ ": can only process local packages")) :=
  claim8_nonlocal_package_rejected _ _ "java" .null
    ⟨"dep", ⟨["reg", "dep", "Cargo.toml"]⟩, some "registry", .null⟩ "registry" rfl

/-- C10: every IDL-extractor invocation recorded in a cycle's trace uses
the package's name, the manifest's parent directory as package root, and
the entry source file hard-coded to `src/lib.rs` under that directory —
regardless of the oracle, command builder, or any workspace/package
configuration, so no configuration can select a different entry file. -/
theorem claim10_extractor_hardcoded_entry (O : Oracle)
    (builder : JValue → String → Except String JCommand) (plugin : String)
    (wsMeta : JValue) (pkg : Package) (tr : List Event) (res : Except String Unit)
    (n : String) (root entry : UPath)
    (h : applyPluginModel O builder plugin wsMeta pkg = (tr, res))
    (hmem : Event.extractIdl n root entry ∈ tr) :
    n = pkg.name ∧ root = ⟨pkg.manifestPath.comps.dropLast⟩ ∧
    entry = ⟨pkg.manifestPath.comps.dropLast ++ ["src", "lib.rs"]⟩ := by
  have htr : tr = (applyPluginModel O builder plugin wsMeta pkg).1 := by rw [h]
  subst htr
  rcases applyPluginModel_trace_shapes O builder plugin wsMeta pkg with
    h0 | ⟨md, evs, hpar, htr2, hsh⟩
  · rw [h0] at hmem
    simp at hmem
  · rw [htr2] at hmem
    obtain ⟨hmd, hne⟩ := UPath.parent_eq _ _ hpar
    rcases List.mem_cons.mp hmem with heq | hmem2
    · injection heq with h1 h2 h3
      subst hmd
      exact ⟨h1, h2, by rw [h3]; rfl⟩
    · exfalso
      rcases hsh with rfl | ⟨cmd, rfl⟩ | ⟨cmd, idl, pm, cp, rfl | rfl⟩ <;> simp at hmem2

/-- witness for C10 on a fully successful concrete cycle. -/
theorem claim10_extractor_hardcoded_entry_witness :
    ("foo" : String) =
      (Package.mk "foo" ⟨["ws", "foo", "Cargo.toml"]⟩ none .null).name ∧
    (⟨["ws", "foo"]⟩ : UPath) =
      ⟨(Package.mk "foo" ⟨["ws", "foo", "Cargo.toml"]⟩ none
        .null).manifestPath.comps.dropLast⟩ ∧
    (⟨["ws", "foo", "src", "lib.rs"]⟩ : UPath) =
      ⟨(Package.mk "foo" ⟨["ws", "foo", "Cargo.toml"]⟩ none
        .null).manifestPath.comps.dropLast ++ ["src", "lib.rs"]⟩ :=
  claim10_extractor_hardcoded_entry
    ⟨fun _ _ _ => .ok .null, fun _ => .ok (), true, .ok (), .ok 0⟩
    defaultPluginCommand "java" .null
    (Package.mk "foo" ⟨["ws", "foo", "Cargo.toml"]⟩ none .null)
    (applyPluginModel ⟨fun _ _ _ => .ok .null, fun _ => .ok (), true, .ok (), .ok 0⟩
      defaultPluginCommand "java" .null
      (Package.mk "foo" ⟨["ws", "foo", "Cargo.toml"]⟩ none .null)).1
    (applyPluginModel ⟨fun _ _ _ => .ok .null, fun _ => .ok (), true, .ok (), .ok 0⟩
      defaultPluginCommand "java" .null
      (Package.mk "foo" ⟨["ws", "foo", "Cargo.toml"]⟩ none .null)).2
    "foo" ⟨["ws", "foo"]⟩ ⟨["ws", "foo", "src", "lib.rs"]⟩ rfl (by decide)

/-- absence of a leading decimal digit, the boundary condition under which
the number parser stops exactly at the end of a rendered number. -/
def notDigitStart : List Char → Prop
  | [] => True
  | c :: _ => c.isDigit = false

theorem plainChar_spec (c : Char) (h : plainChar c = true) :
    32 ≤ c.toNat ∧ ¬ (c = Char.ofNat 34) ∧ ¬ (c = '\\') := by
  unfold plainChar at h
  simp only [Bool.and_eq_true, decide_eq_true_eq, Bool.not_eq_true',
    decide_eq_false_iff_not] at h
  exact ⟨h.1.1, h.1.2, h.2⟩

theorem jsonEscapeChar_plain (c : Char) (h : plainChar c = true) :
    jsonEscapeChar c = [c] := by
  obtain ⟨h32, hq', hb'⟩ := plainChar_spec c h
  have hn : ¬ (c = '\n') := fun hc => by subst hc; exact absurd h32 (by decide)
  have ht : ¬ (c = '\t') := fun hc => by subst hc; exact absurd h32 (by decide)
  have hr : ¬ (c = Char.ofNat 13) := fun hc => by subst hc; exact absurd h32 (by decide)
  have h8 : ¬ (c = Char.ofNat 8) := fun hc => by subst hc; exact absurd h32 (by decide)
  have h12 : ¬ (c = Char.ofNat 12) := fun hc => by subst hc; exact absurd h32 (by decide)
  have hlt : ¬ (c.toNat < 32) := by omega
  simp [jsonEscapeChar, hq', hb', hn, ht, hr, h8, h12, hlt]

theorem jsonEscape_plain (l : List Char) (h : ∀ c ∈ l, plainChar c = true) :
    jsonEscape l = l := by
  induction l with
  | nil => rfl
  | cons c cs ih =>
    unfold jsonEscape at ih ⊢
    simp only [List.foldr_cons]
    rw [ih (fun d hd => h d (List.mem_cons_of_mem c hd)),
      jsonEscapeChar_plain c (h c (List.mem_cons_self c cs))]
    rfl

theorem renderStr_plain (s : String) (h : plainString s = true) :
    renderStr s = Char.ofNat 34 :: s.data ++ [Char.ofNat 34] := by
  unfold renderStr
  rw [jsonEscape_plain s.data (by simpa [plainString, List.all_eq_true] using h)]

theorem rustEscapeChar_plain (c : Char) (h : plainChar c = true) :
    rustEscapeChar c = [c] := by
  obtain ⟨h32, hq', hb'⟩ := plainChar_spec c h
  have hn : ¬ (c = '\n') := fun hc => by subst hc; exact absurd h32 (by decide)
  have ht : ¬ (c = '\t') := fun hc => by subst hc; exact absurd h32 (by decide)
  have hr : ¬ (c = Char.ofNat 13) := fun hc => by subst hc; exact absurd h32 (by decide)
  have hlt : ¬ (c.toNat < 32) := by omega
  simp [rustEscapeChar, hq', hb', hn, ht, hr, hlt]

theorem rustEscape_fold_plain (l : List Char) (h : ∀ c ∈ l, plainChar c = true) :
    l.foldr (fun c acc => rustEscapeChar c ++ acc) [] = l := by
  induction l with
  | nil => rfl
  | cons c cs ih =>
    simp only [List.foldr_cons]
    rw [ih (fun d hd => h d (List.mem_cons_of_mem c hd)),
      rustEscapeChar_plain c (h c (List.mem_cons_self c cs))]
    rfl

theorem rustDebugStr_plain (s : String) (h : plainString s = true) :
    rustDebugStr s = ⟨Char.ofNat 34 :: s.data ++ [Char.ofNat 34]⟩ := by
  unfold rustDebugStr
  rw [rustEscape_fold_plain s.data (by simpa [plainString, List.all_eq_true] using h)]

theorem parseStrChars_plain (l : List Char) (rest : List Char)
    (h : ∀ c ∈ l, plainChar c = true) :
    parseStrChars (l ++ Char.ofNat 34 :: rest) = some (l, rest) := by
  induction l with
  | nil => simp [parseStrChars]
  | cons c cs ih =>
    obtain ⟨h32, hq', hb'⟩ := plainChar_spec c (h c (List.mem_cons_self c cs))
    simp only [List.cons_append, parseStrChars, if_neg hq', if_neg hb', List.append_eq]
    rw [ih (fun d hd => h d (List.mem_cons_of_mem c hd))]

theorem char_ofNat_toNat (n : Nat) (h : n < 55296) : (Char.ofNat n).toNat = n := by
  unfold Char.ofNat
  split
  · rfl
  · next h2 => exact absurd (Or.inl h) h2

theorem isDigit_of_range (c : Char) (h48 : 48 ≤ c.toNat) (h57 : c.toNat ≤ 57) :
    c.isDigit = true := by
  unfold Char.isDigit
  simp only [ge_iff_le, Bool.and_eq_true, decide_eq_true_eq]
  constructor
  · rw [UInt32.le_def, BitVec.le_def]
    exact h48
  · rw [UInt32.le_def, BitVec.le_def]
    exact h57

theorem natDigits_cons (n : Nat) :
    ∃ d ds, natDigits n = d :: ds ∧
      ∀ c ∈ natDigits n, 48 ≤ c.toNat ∧ c.toNat ≤ 57 := by
  induction n using Nat.strong_induction_on with
  | _ n ih =>
    by_cases h : n < 10
    · refine ⟨Char.ofNat (48 + n), [], ?_, ?_⟩
      · rw [natDigits]
        simp [h]
      · intro c hc
        rw [natDigits] at hc
        simp [h] at hc
        subst hc
        rw [char_ofNat_toNat _ (by omega)]
        omega
    · obtain ⟨d, ds, hd, hall⟩ := ih (n / 10) (Nat.div_lt_self (by omega) (by omega))
      refine ⟨d, ds ++ [Char.ofNat (48 + n % 10)], ?_, ?_⟩
      · rw [natDigits]
        simp [h, hd]
      · intro c hc
        rw [natDigits] at hc
        simp only [h, dite_false] at hc
        rcases List.mem_append.mp hc with hc | hc
        · exact hall c hc
        · have : c = Char.ofNat (48 + n % 10) := by simpa using hc
          subst this
          rw [char_ofNat_toNat _ (by omega)]
          omega

theorem parseDigits_append (l rest : List Char) (acc : Nat)
    (hl : ∀ c ∈ l, c.isDigit = true) (hrest : notDigitStart rest) :
    parseDigits acc (l ++ rest) =
      (l.foldl (fun a c => a * 10 + (c.toNat - 48)) acc, rest) := by
  induction l generalizing acc with
  | nil =>
    cases rest with
    | nil => rfl
    | cons c cs =>
      unfold notDigitStart at hrest
      simp [parseDigits, hrest]
  | cons c cs ih =>
    have hc := hl c (List.mem_cons_self c cs)
    simp only [List.cons_append, parseDigits, hc, if_true, List.foldl_cons]
    exact ih _ (fun d hd => hl d (List.mem_cons_of_mem c hd))

theorem natDigits_foldl (n : Nat) :
    ∀ acc, (natDigits n).foldl (fun a c => a * 10 + (c.toNat - 48)) acc =
      acc * 10 ^ (natDigits n).length + n := by
  induction n using Nat.strong_induction_on with
  | _ n ih =>
    intro acc
    by_cases h : n < 10
    · rw [natDigits]
      simp [h, char_ofNat_toNat (48 + n) (by omega)]
    · rw [natDigits]
      simp only [h, dite_false]
      rw [List.foldl_append, ih (n / 10) (Nat.div_lt_self (by omega) (by omega)) acc]
      simp only [List.foldl_cons, List.foldl_nil, List.length_append,
        List.length_cons, List.length_nil]
      rw [char_ofNat_toNat _ (by omega)]
      have hmod : 10 * (n / 10) + n % 10 = n := Nat.div_add_mod n 10
      have hpow : (10 : Nat) ^ ((natDigits (n / 10)).length + (0 + 1)) =
          10 ^ (natDigits (n / 10)).length * 10 := by
        simp [pow_succ]
      rw [hpow]
      have : 48 + n % 10 - 48 = n % 10 := by omega
      rw [this]
      calc (acc * 10 ^ (natDigits (n / 10)).length + n / 10) * 10 + n % 10
          = acc * (10 ^ (natDigits (n / 10)).length * 10) +
              (10 * (n / 10) + n % 10) := by ring
        _ = acc * (10 ^ (natDigits (n / 10)).length * 10) + n := by rw [hmod]

theorem parse_natDigits (n : Nat) (rest : List Char) (hrest : notDigitStart rest) :
    ∃ d ds, natDigits n = d :: ds ∧ 48 ≤ d.toNat ∧ d.toNat ≤ 57 ∧
      d.isDigit = true ∧ parseDigits (d.toNat - 48) (ds ++ rest) = (n, rest) := by
  obtain ⟨d, ds, hd, hall⟩ := natDigits_cons n
  have hdd := hall d (hd ▸ List.mem_cons_self d ds)
  have hdig : ∀ c ∈ ds, c.isDigit = true := fun c hc =>
    have hr := hall c (hd ▸ List.mem_cons_of_mem d hc)
    isDigit_of_range c hr.1 hr.2
  refine ⟨d, ds, hd, hdd.1, hdd.2, isDigit_of_range d hdd.1 hdd.2, ?_⟩
  rw [parseDigits_append ds rest (d.toNat - 48) hdig hrest]
  have h2 := natDigits_foldl n 0
  rw [hd] at h2
  simp only [List.foldl_cons, Nat.zero_mul, Nat.zero_add] at h2
  rw [h2]

theorem jsize_pos (v : JValue) : 1 ≤ jsize v := by
  cases v <;> simp [jsize]

theorem skipWs_cons_not (c : Char) (l : List Char) (h : jsonWs c = false) :
    skipWs (c :: l) = c :: l := by
  simp [skipWs, h]

theorem digit_branch_facts (d : Char) (h48 : 48 ≤ d.toNat) (h57 : d.toNat ≤ 57) :
    jsonWs d = false ∧ ¬(d = 'n') ∧ ¬(d = 't') ∧ ¬(d = 'f') ∧
    ¬(d = Char.ofNat 34) ∧ ¬(d = '-') ∧ ¬(d = ']') ∧ ¬(d = rbrace) := by
  have hsp : ¬(d = ' ') := fun h => by rw [h] at h48; exact absurd h48 (by decide)
  have hnl : ¬(d = '\n') := fun h => by rw [h] at h48; exact absurd h48 (by decide)
  have htb : ¬(d = '\t') := fun h => by rw [h] at h48; exact absurd h48 (by decide)
  have hcr : ¬(d = Char.ofNat 13) := fun h => by rw [h] at h48; exact absurd h48 (by decide)
  refine ⟨by simp [jsonWs, hsp, hnl, htb, hcr], ?_, ?_, ?_, ?_, ?_, ?_, ?_⟩
  · exact fun h => by rw [h] at h57; exact absurd h57 (by decide)
  · exact fun h => by rw [h] at h57; exact absurd h57 (by decide)
  · exact fun h => by rw [h] at h57; exact absurd h57 (by decide)
  · exact fun h => by rw [h] at h48; exact absurd h48 (by decide)
  · exact fun h => by rw [h] at h48; exact absurd h48 (by decide)
  · exact fun h => by rw [h] at h57; exact absurd h57 (by decide)
  · exact fun h => by rw [h] at h57; exact absurd h57 (by decide)

theorem renderJ_first (v : JValue) :
    ∃ c t, renderJ v = c :: t ∧
      (jsonWs c = false ∧ ¬(c = ']') ∧ ¬(c = rbrace)) := by
  have hgood : ∀ c : Char, c.toNat ≠ 32 → c.toNat ≠ 10 → c.toNat ≠ 9 →
      c.toNat ≠ 13 → c.toNat ≠ 93 → c.toNat ≠ 125 →
      jsonWs c = false ∧ ¬(c = ']') ∧ ¬(c = rbrace) := by
    intro c h32 h10 h9 h13 h93 h125
    refine ⟨?_, fun h => h93 (by rw [h]; rfl), fun h => h125 (by rw [h]; rfl)⟩
    have hs : ¬(c = ' ') := fun h => h32 (by rw [h]; rfl)
    have hn : ¬(c = '\n') := fun h => h10 (by rw [h]; rfl)
    have ht : ¬(c = '\t') := fun h => h9 (by rw [h]; rfl)
    have hr : ¬(c = Char.ofNat 13) := fun h => h13 (by rw [h]; rfl)
    simp [jsonWs, hs, hn, ht, hr]
  cases v with
  | null => exact ⟨'n', _, rfl, hgood 'n' (by decide) (by decide) (by decide)
      (by decide) (by decide) (by decide)⟩
  | bool b =>
    cases b with
    | true => exact ⟨'t', _, rfl, by decide⟩
    | false => exact ⟨'f', _, rfl, by decide⟩
  | num n =>
    cases n with
    | ofNat m =>
      obtain ⟨d, ds, hd, hall⟩ := natDigits_cons m
      have hdd := hall d (hd ▸ List.mem_cons_self d ds)
      obtain ⟨hws, _, _, _, _, _, hbr, hrb⟩ := digit_branch_facts d hdd.1 hdd.2
      exact ⟨d, ds, by simp [renderJ, renderNum, hd], hws, hbr, hrb⟩
    | negSucc m =>
      refine ⟨'-', natDigits (m + 1), by simp [renderJ, renderNum], by decide⟩
  | str s => exact ⟨Char.ofNat 34, _, rfl, by decide⟩
  | arr xs =>
    cases xs with
    | nil => exact ⟨'[', _, rfl, by decide⟩
    | cons x t => exact ⟨'[', _, rfl, by decide⟩
  | obj ms =>
    cases ms with
    | nil => exact ⟨lbrace, _, rfl, by decide⟩
    | cons m t => exact ⟨lbrace, _, rfl, by decide⟩

theorem notDigitStart_arrTail (xs : List JValue) (rest : List Char) :
    notDigitStart (renderArrTail xs ++ rest) := by
  cases xs with
  | nil => exact (by decide : (']' : Char).isDigit = false)
  | cons y ys => exact (by decide : (',' : Char).isDigit = false)

theorem notDigitStart_objTail (ms : List (String × JValue)) (rest : List Char) :
    notDigitStart (renderObjTail ms ++ rest) := by
  cases ms with
  | nil =>
    show (rbrace).isDigit = false
    decide
  | cons m t => exact (by decide : (',' : Char).isDigit = false)

theorem parse_renderJ (fuel : Nat) :
    (∀ v rest, jsize v ≤ fuel → plainValue v = true → notDigitStart rest →
       parseVal fuel (renderJ v ++ rest) = some (v, rest)) ∧
    (∀ x xs rest, jsizeList (x :: xs) ≤ fuel → plainList (x :: xs) = true →
       parseArrElems fuel (renderJ x ++ (renderArrTail xs ++ rest)) =
         some (.arr (x :: xs), rest)) ∧
    (∀ k v ms rest, jsizeKVs ((k, v) :: ms) ≤ fuel →
       plainKVs ((k, v) :: ms) = true →
       parseObjMembers fuel (renderMember (k, v) ++ (renderObjTail ms ++ rest)) =
         some (.obj ((k, v) :: ms), rest)) := by
  induction fuel with
  | zero =>
    refine ⟨fun v rest hsz _ _ => absurd hsz (by have := jsize_pos v; omega),
      fun x xs rest hsz _ => absurd hsz (by simp only [jsizeList]; omega),
      fun k v ms rest hsz _ => absurd hsz (by simp only [jsizeKVs]; omega)⟩
  | succ f ih =>
    obtain ⟨ihv, iha, iho⟩ := ih
    refine ⟨?_, ?_, ?_⟩
    · intro v rest hsz hpl hrest
      cases v with
      | null => simp [renderJ, parseVal, skipWs, jsonWs]
      | bool b => cases b <;> simp [renderJ, parseVal, skipWs, jsonWs]
      | num n =>
        cases n with
        | ofNat m =>
          obtain ⟨d, ds, hd, h48, h57, hdig, hparse⟩ := parse_natDigits m rest hrest
          obtain ⟨hws, hn, ht, hf, hq, hm, _, _⟩ := digit_branch_facts d h48 h57
          have hrw : renderJ (.num (Int.ofNat m)) ++ rest = d :: (ds ++ rest) := by
            simp [renderJ, renderNum, hd]
          rw [hrw]
          simp [parseVal, skipWs_cons_not d _ hws, hn, ht, hf, hq, hm, hdig, hparse]
        | negSucc m =>
          obtain ⟨d, ds, hd, h48, h57, hdig, hparse⟩ :=
            parse_natDigits (m + 1) rest hrest
          have hrw : renderJ (.num (Int.negSucc m)) ++ rest =
              '-' :: (d :: (ds ++ rest)) := by
            simp [renderJ, renderNum, hd]
          rw [hrw]
          simp [parseVal, skipWs, jsonWs, hdig, hparse, Int.negSucc_eq]
      | str s =>
        have hps : plainString s = true := by simpa [plainValue] using hpl
        have hchars : ∀ c ∈ s.data, plainChar c = true := by
          simpa [plainString, List.all_eq_true] using hps
        have hrw : renderJ (.str s) ++ rest =
            Char.ofNat 34 :: (s.data ++ (Char.ofNat 34 :: rest)) := by
          simp [renderJ, renderStr_plain s hps]
        rw [hrw]
        simp [parseVal, skipWs, jsonWs, parseStrChars_plain s.data rest hchars]
      | arr xs =>
        cases xs with
        | nil => simp [renderJ, parseVal, skipWs, jsonWs, lbrace, rbrace]
        | cons x xs2 =>
          obtain ⟨c0, t0, hx0, hws0, hbr0, _⟩ := renderJ_first x
          have hsz2 : jsizeList (x :: xs2) ≤ f := by
            have hj : jsize (.arr (x :: xs2)) = 1 + jsizeList (x :: xs2) := by
              simp [jsize]
            omega
          have hpl2 : plainList (x :: xs2) = true := by simpa [plainValue] using hpl
          have harr := iha x xs2 rest hsz2 hpl2
          have hcs : renderJ x ++ (renderArrTail xs2 ++ rest) =
              c0 :: (t0 ++ (renderArrTail xs2 ++ rest)) := by rw [hx0]; simp
          rw [hcs] at harr
          have hrw : renderJ (.arr (x :: xs2)) ++ rest =
              '[' :: (c0 :: (t0 ++ (renderArrTail xs2 ++ rest))) := by
            simp [renderJ, hx0]
          rw [hrw]
          have hws0n : ¬(((c0 = ' ' ∨ c0 = '\n') ∨ c0 = '\t') ∨ c0 = Char.ofNat 13) := by
            intro hor
            rcases hor with ((h | h) | h) | h <;>
              (rw [h] at hws0; exact absurd hws0 (by decide))
          simp [parseVal, skipWs, jsonWs, hws0n, hbr0, harr]
      | obj ms =>
        cases ms with
        | nil => simp [renderJ, parseVal, skipWs, jsonWs, lbrace, rbrace]
        | cons m ms2 =>
          obtain ⟨k, v0⟩ := m
          have hsz2 : jsizeKVs ((k, v0) :: ms2) ≤ f := by
            have hj : jsize (.obj ((k, v0) :: ms2)) = 1 + jsizeKVs ((k, v0) :: ms2) := by
              simp [jsize]
            omega
          have hpl2 : plainKVs ((k, v0) :: ms2) = true := by simpa [plainValue] using hpl
          have hho := iho k v0 ms2 rest hsz2 hpl2
          have hcs : renderMember (k, v0) ++ (renderObjTail ms2 ++ rest) =
              Char.ofNat 34 ::
                (jsonEscape k.data ++
                  (Char.ofNat 34 :: (':' :: (renderJ v0 ++ (renderObjTail ms2 ++ rest))))) := by
            simp [renderMember, renderStr]
          rw [hcs] at hho
          have hrw : renderJ (.obj ((k, v0) :: ms2)) ++ rest =
              lbrace :: (Char.ofNat 34 ::
                (jsonEscape k.data ++
                  (Char.ofNat 34 :: (':' :: (renderJ v0 ++ (renderObjTail ms2 ++ rest)))))) := by
            simp [renderJ, renderMember, renderStr]
          rw [hrw]
          simp [parseVal, skipWs, jsonWs, lbrace, rbrace, hho]
    · intro x xs rest hsz hpl
      have hplx : plainValue x = true := by
        have := hpl
        simp only [plainList, Bool.and_eq_true] at this
        exact this.1
      have hszx : jsize x ≤ f := by
        simp only [jsizeList] at hsz
        omega
      have hv := ihv x (renderArrTail xs ++ rest) hszx hplx (notDigitStart_arrTail xs rest)
      simp only [parseArrElems, hv]
      cases xs with
      | nil =>
        simp [renderArrTail, skipWs, jsonWs]
      | cons y ys =>
        have hply : plainList (y :: ys) = true := by
          simp only [plainList, Bool.and_eq_true] at hpl ⊢
          exact hpl.2
        have hszy : jsizeList (y :: ys) ≤ f := by
          simp only [jsizeList] at hsz ⊢
          omega
        have hy := iha y ys rest hszy hply
        have htl : renderArrTail (y :: ys) ++ rest =
            ',' :: (renderJ y ++ (renderArrTail ys ++ rest)) := by
          simp [renderArrTail]
        rw [htl]
        simp [skipWs, jsonWs, hy]
    · intro k v0 ms rest hsz hpl
      have hplv : plainValue v0 = true := by
        have := hpl
        simp only [plainKVs, Bool.and_eq_true] at this
        exact this.1.2
      have hplk : plainString k = true := by
        have := hpl
        simp only [plainKVs, Bool.and_eq_true] at this
        exact this.1.1
      have hszv : jsize v0 ≤ f := by
        simp only [jsizeKVs] at hsz
        omega
      have hchars : ∀ c ∈ k.data, plainChar c = true := by
        simpa [plainString, List.all_eq_true] using hplk
      have hv := ihv v0 (renderObjTail ms ++ rest) hszv hplv
        (notDigitStart_objTail ms rest)
      have hmem : renderMember (k, v0) ++ (renderObjTail ms ++ rest) =
          Char.ofNat 34 ::
            (k.data ++ (Char.ofNat 34 :: (':' :: (renderJ v0 ++ (renderObjTail ms ++ rest))))) := by
        simp [renderMember, renderStr_plain k hplk]
      rw [hmem]
      have hstr := parseStrChars_plain k.data
        (':' :: (renderJ v0 ++ (renderObjTail ms ++ rest))) hchars
      simp only [parseObjMembers, skipWs_cons_not _ _ (by decide : jsonWs (Char.ofNat 34) = false)]
      simp only [List.append_assoc] at hstr
      simp only [hstr]
      simp only [skipWs_cons_not ':' _ (by decide)]
      simp only [hv]
      cases ms with
      | nil =>
        simp [renderObjTail, skipWs, jsonWs, rbrace]
      | cons m2 ms2 =>
        obtain ⟨k2, v2⟩ := m2
        have hply : plainKVs ((k2, v2) :: ms2) = true := by
          simp only [plainKVs, Bool.and_eq_true] at hpl ⊢
          exact hpl.2
        have hszy : jsizeKVs ((k2, v2) :: ms2) ≤ f := by
          simp only [jsizeKVs] at hsz ⊢
          omega
        have hy := iho k2 v2 ms2 rest hszy hply
        have htl : renderObjTail ((k2, v2) :: ms2) ++ rest =
            ',' :: (renderMember (k2, v2) ++ (renderObjTail ms2 ++ rest)) := by
          simp [renderObjTail]
        rw [htl]
        simp [skipWs, jsonWs, hy]

theorem parseVal_ws (f : Nat) (c : Char) (t : List Char) (h : jsonWs c = true) :
    parseVal (f + 1) (c :: t) = parseVal (f + 1) t := by
  simp only [parseVal, skipWs, h, if_true]

theorem parseVal_objStart (f : Nat) (t : List Char) (d : Char) (rest2 : List Char)
    (hskip : skipWs t = d :: rest2) (hd : ¬ (d = rbrace)) :
    parseVal (f + 1) (lbrace :: t) = parseObjMembers f t := by
  simp only [parseVal]
  rw [skipWs_cons_not lbrace t (by decide)]
  have hd2 : ¬ (d = Char.ofNat 125) := hd
  simp [lbrace, hskip, hd, hd2]

theorem parseObjMembers_step_cons (f : Nat) (key : List Char)
    (hkey : ∀ c ∈ key, plainChar c = true) (afterColon : List Char) (v : JValue)
    (rest4 : List Char) (msv : List (String × JValue)) (r : List Char)
    (hval : parseVal f afterColon = some (v, ',' :: rest4))
    (hnext : parseObjMembers f rest4 = some (.obj msv, r)) :
    parseObjMembers (f + 1)
        (Char.ofNat 34 :: (key ++ (Char.ofNat 34 :: (':' :: afterColon)))) =
      some (.obj ((⟨key⟩, v) :: msv), r) := by
  simp only [parseObjMembers,
    skipWs_cons_not (Char.ofNat 34) _ (by decide : jsonWs (Char.ofNat 34) = false),
    skipWs_cons_not ':' afterColon (by decide),
    skipWs_cons_not ',' rest4 (by decide),
    parseStrChars_plain key (':' :: afterColon) hkey, hval, hnext]
  simp

theorem parseObjMembers_step_close (f : Nat) (key : List Char)
    (hkey : ∀ c ∈ key, plainChar c = true) (afterColon : List Char) (v : JValue)
    (rest3 rest5 : List Char)
    (hval : parseVal f afterColon = some (v, rest3))
    (hskip : skipWs rest3 = rbrace :: rest5) :
    parseObjMembers (f + 1)
        (Char.ofNat 34 :: (key ++ (Char.ofNat 34 :: (':' :: afterColon)))) =
      some (.obj [(⟨key⟩, v)], rest5) := by
  simp only [parseObjMembers,
    skipWs_cons_not (Char.ofNat 34) _ (by decide : jsonWs (Char.ofNat 34) = false),
    skipWs_cons_not ':' afterColon (by decide),
    parseStrChars_plain key (':' :: afterColon) hkey, hval, hskip]
  simp [rbrace]

/-- handshake stream segment: everything after the rendered path value. -/
def hsR5 : List Char :=
  '\n' :: ' ' :: ' ' :: rbrace :: '\n' :: rbrace :: '\n' :: []

/-- handshake stream segment: the value position of `path`. -/
def hsAfterPath (pathStr : String) : List Char :=
  ' ' :: Char.ofNat 34 :: (pathStr.data ++ (Char.ofNat 34 :: hsR5))

/-- handshake stream segment: the `path` member with its leading
whitespace. -/
def hsT4 (pathStr : String) : List Char :=
  '\n' :: ' ' :: ' ' :: ' ' :: ' ' :: Char.ofNat 34 :: 'p' :: 'a' :: 't' :: 'h' ::
    Char.ofNat 34 :: ':' :: hsAfterPath pathStr

/-- handshake stream segment: the value position of `crate_name`. -/
def hsAfterName (name pathStr : String) : List Char :=
  ' ' :: Char.ofNat 34 :: (name.data ++ (Char.ofNat 34 :: (',' :: hsT4 pathStr)))

/-- handshake stream segment: the members of the `dest_crate` object. -/
def hsTInner (name pathStr : String) : List Char :=
  '\n' :: ' ' :: ' ' :: ' ' :: ' ' :: Char.ofNat 34 :: 'c' :: 'r' :: 'a' :: 't' ::
    'e' :: '_' :: 'n' :: 'a' :: 'm' :: 'e' :: Char.ofNat 34 :: ':' ::
    hsAfterName name pathStr

/-- handshake stream segment: the value position of `dest_crate`. -/
def hsAfterDest (name pathStr : String) : List Char :=
  ' ' :: lbrace :: hsTInner name pathStr

/-- handshake stream segment: the `dest_crate` member. -/
def hsTDest (name pathStr : String) : List Char :=
  '\n' :: ' ' :: ' ' :: Char.ofNat 34 :: 'd' :: 'e' :: 's' :: 't' :: '_' :: 'c' ::
    'r' :: 'a' :: 't' :: 'e' :: Char.ofNat 34 :: ':' :: hsAfterDest name pathStr

/-- handshake stream segment: the value position of `metadata`. -/
def hsAfterMeta (meta : JValue) (name pathStr : String) : List Char :=
  ' ' :: (renderJ meta ++ (',' :: hsTDest name pathStr))

/-- handshake stream segment: the `metadata` member. -/
def hsTMeta (meta : JValue) (name pathStr : String) : List Char :=
  '\n' :: ' ' :: ' ' :: Char.ofNat 34 :: 'm' :: 'e' :: 't' :: 'a' :: 'd' :: 'a' ::
    't' :: 'a' :: Char.ofNat 34 :: ':' :: hsAfterMeta meta name pathStr

/-- handshake stream segment: the value position of `idl`. -/
def hsAfterIdl (idl meta : JValue) (name pathStr : String) : List Char :=
  ' ' :: (renderJ idl ++ (',' :: hsTMeta meta name pathStr))

/-- handshake stream segment: the members of the top-level handshake
object. -/
def hsTIdl (idl meta : JValue) (name pathStr : String) : List Char :=
  '\n' :: ' ' :: ' ' :: Char.ofNat 34 :: 'i' :: 'd' :: 'l' :: Char.ofNat 34 ::
    ':' :: hsAfterIdl idl meta name pathStr

/-- the three-key handshake envelope value delivered by a dispatch. -/
def hsEnvelope (idl meta : JValue) (name pathStr : String) : JValue :=
  .obj [("idl", idl), ("metadata", meta),
    ("dest_crate", .obj [("crate_name", .str name), ("path", .str pathStr)])]

theorem writeData_data (idl meta : JValue) (name pathStr : String)
    (hname : plainString name = true) (hpath : plainString pathStr = true) :
    (writeData (renderJson idl) (renderJson meta) name pathStr).data =
      lbrace :: hsTIdl idl meta name pathStr := by
  simp [writeData, renderJson, String.data_append,
    rustDebugStr_plain name hname, rustDebugStr_plain pathStr hpath,
    hsTIdl, hsAfterIdl, hsTMeta, hsAfterMeta, hsTDest, hsAfterDest, hsTInner,
    hsAfterName, hsT4, hsAfterPath, hsR5, lbrace, rbrace]

theorem parse_writeData (idl meta : JValue) (name pathStr : String)
    (hidl : plainValue idl = true) (hmeta : plainValue meta = true)
    (hname : plainString name = true) (hpath : plainString pathStr = true) :
    parseJson (jsize idl + jsize meta + 8)
      (writeData (renderJson idl) (renderJson meta) name pathStr) =
      some (hsEnvelope idl meta name pathStr) := by
  have hKi : 1 ≤ jsize idl := jsize_pos idl
  have hKm : 1 ≤ jsize meta := jsize_pos meta
  set K := jsize idl + jsize meta with hK
  -- the `path` string value
  have hv_path : parseVal (K + 1) (hsAfterPath pathStr) = some (.str pathStr, hsR5) := by
    have h := (parse_renderJ (K + 1)).1 (.str pathStr) hsR5
      (by simp only [jsize]; omega) (by simpa [plainValue] using hpath)
      (by decide : ('\n' : Char).isDigit = false)
    have harg : renderJ (.str pathStr) ++ hsR5 =
        Char.ofNat 34 :: (pathStr.data ++ (Char.ofNat 34 :: hsR5)) := by
      simp [renderJ, renderStr_plain pathStr hpath]
    rw [harg] at h
    calc parseVal (K + 1) (hsAfterPath pathStr)
        = parseVal (K + 1) (Char.ofNat 34 :: (pathStr.data ++ (Char.ofNat 34 :: hsR5))) :=
          parseVal_ws K ' ' _ (by decide)
      _ = some (.str pathStr, hsR5) := h
  -- the `path` member closes the inner object
  have h_path_mem : parseObjMembers (K + 2) (hsT4 pathStr) =
      some (.obj [("path", .str pathStr)], '\n' :: rbrace :: '\n' :: []) :=
    parseObjMembers_step_close (K + 1) ['p', 'a', 't', 'h'] (by decide)
      (hsAfterPath pathStr) (.str pathStr) hsR5 ('\n' :: rbrace :: '\n' :: [])
      hv_path rfl
  -- the `crate_name` string value
  have hv_name : parseVal (K + 2) (hsAfterName name pathStr) =
      some (.str name, ',' :: hsT4 pathStr) := by
    have h := (parse_renderJ (K + 2)).1 (.str name) (',' :: hsT4 pathStr)
      (by simp only [jsize]; omega) (by simpa [plainValue] using hname)
      (by decide : (',' : Char).isDigit = false)
    have harg : renderJ (.str name) ++ (',' :: hsT4 pathStr) =
        Char.ofNat 34 :: (name.data ++ (Char.ofNat 34 :: (',' :: hsT4 pathStr))) := by
      simp [renderJ, renderStr_plain name hname]
    rw [harg] at h
    calc parseVal (K + 2) (hsAfterName name pathStr)
        = parseVal (K + 2)
            (Char.ofNat 34 :: (name.data ++ (Char.ofNat 34 :: (',' :: hsT4 pathStr)))) :=
          parseVal_ws (K + 1) ' ' _ (by decide)
      _ = some (.str name, ',' :: hsT4 pathStr) := h
  -- the `crate_name` member followed by the `path` member
  have h_cn_mem : parseObjMembers (K + 3) (hsTInner name pathStr) =
      some (.obj [("crate_name", .str name), ("path", .str pathStr)],
        '\n' :: rbrace :: '\n' :: []) :=
    parseObjMembers_step_cons (K + 2)
      ['c', 'r', 'a', 't', 'e', '_', 'n', 'a', 'm', 'e'] (by decide)
      (hsAfterName name pathStr) (.str name) (hsT4 pathStr)
      [("path", .str pathStr)] ('\n' :: rbrace :: '\n' :: []) hv_name h_path_mem
  -- the `dest_crate` object value
  have hv_inner : parseVal (K + 4) (hsAfterDest name pathStr) =
      some (.obj [("crate_name", .str name), ("path", .str pathStr)],
        '\n' :: rbrace :: '\n' :: []) := by
    calc parseVal (K + 4) (hsAfterDest name pathStr)
        = parseVal (K + 4) (lbrace :: hsTInner name pathStr) :=
          parseVal_ws (K + 3) ' ' _ (by decide)
      _ = parseObjMembers (K + 3) (hsTInner name pathStr) :=
          parseVal_objStart (K + 3) (hsTInner name pathStr) (Char.ofNat 34)
            ('c' :: 'r' :: 'a' :: 't' :: 'e' :: '_' :: 'n' :: 'a' :: 'm' :: 'e' ::
              Char.ofNat 34 :: ':' :: hsAfterName name pathStr) rfl (by decide)
      _ = some (.obj [("crate_name", .str name), ("path", .str pathStr)],
            '\n' :: rbrace :: '\n' :: []) := h_cn_mem
  -- the `dest_crate` member closes the outer object
  have h_dest_mem : parseObjMembers (K + 5) (hsTDest name pathStr) =
      some (.obj [("dest_crate",
        .obj [("crate_name", .str name), ("path", .str pathStr)])], '\n' :: []) :=
    parseObjMembers_step_close (K + 4)
      ['d', 'e', 's', 't', '_', 'c', 'r', 'a', 't', 'e'] (by decide)
      (hsAfterDest name pathStr)
      (.obj [("crate_name", .str name), ("path", .str pathStr)])
      ('\n' :: rbrace :: '\n' :: []) ('\n' :: []) hv_inner rfl
  -- the `metadata` value
  have hv_meta : parseVal (K + 5) (hsAfterMeta meta name pathStr) =
      some (meta, ',' :: hsTDest name pathStr) := by
    have h := (parse_renderJ (K + 5)).1 meta (',' :: hsTDest name pathStr)
      (by omega) hmeta (by decide : (',' : Char).isDigit = false)
    calc parseVal (K + 5) (hsAfterMeta meta name pathStr)
        = parseVal (K + 5) (renderJ meta ++ (',' :: hsTDest name pathStr)) :=
          parseVal_ws (K + 4) ' ' _ (by decide)
      _ = some (meta, ',' :: hsTDest name pathStr) := h
  -- the `metadata` member followed by `dest_crate`
  have h_meta_mem : parseObjMembers (K + 6) (hsTMeta meta name pathStr) =
      some (.obj [("metadata", meta), ("dest_crate",
        .obj [("crate_name", .str name), ("path", .str pathStr)])], '\n' :: []) :=
    parseObjMembers_step_cons (K + 5)
      ['m', 'e', 't', 'a', 'd', 'a', 't', 'a'] (by decide)
      (hsAfterMeta meta name pathStr) meta (hsTDest name pathStr)
      [("dest_crate", .obj [("crate_name", .str name), ("path", .str pathStr)])]
      ('\n' :: []) hv_meta h_dest_mem
  -- the `idl` value
  have hv_idl : parseVal (K + 6) (hsAfterIdl idl meta name pathStr) =
      some (idl, ',' :: hsTMeta meta name pathStr) := by
    have h := (parse_renderJ (K + 6)).1 idl (',' :: hsTMeta meta name pathStr)
      (by omega) hidl (by decide : (',' : Char).isDigit = false)
    calc parseVal (K + 6) (hsAfterIdl idl meta name pathStr)
        = parseVal (K + 6) (renderJ idl ++ (',' :: hsTMeta meta name pathStr)) :=
          parseVal_ws (K + 5) ' ' _ (by decide)
      _ = some (idl, ',' :: hsTMeta meta name pathStr) := h
  -- the `idl` member followed by the rest of the envelope
  have h_idl_mem : parseObjMembers (K + 7) (hsTIdl idl meta name pathStr) =
      some (hsEnvelope idl meta name pathStr, '\n' :: []) :=
    parseObjMembers_step_cons (K + 6) ['i', 'd', 'l'] (by decide)
      (hsAfterIdl idl meta name pathStr) idl (hsTMeta meta name pathStr)
      [("metadata", meta), ("dest_crate",
        .obj [("crate_name", .str name), ("path", .str pathStr)])]
      ('\n' :: []) hv_idl h_meta_mem
  -- the top-level object
  have h_top : parseVal (K + 8) (lbrace :: hsTIdl idl meta name pathStr) =
      some (hsEnvelope idl meta name pathStr, '\n' :: []) :=
    calc parseVal (K + 8) (lbrace :: hsTIdl idl meta name pathStr)
        = parseObjMembers (K + 7) (hsTIdl idl meta name pathStr) :=
          parseVal_objStart (K + 7) (hsTIdl idl meta name pathStr) (Char.ofNat 34)
            ('i' :: 'd' :: 'l' :: Char.ofNat 34 :: ':' ::
              hsAfterIdl idl meta name pathStr) rfl (by decide)
      _ = some (hsEnvelope idl meta name pathStr, '\n' :: []) := h_idl_mem
  -- assemble the document-level parse
  have hdata := writeData_data idl meta name pathStr hname hpath
  unfold parseJson
  rw [hdata, h_top]
  rfl

/-- C2: whenever a cycle writes a handshake to a plugin's stdin, the bytes
written are the `write_data` rendering of some IDL, plugin-scoped metadata
and destination path with crate name `<package>-<plugin>`; for plain
(escape-free) payloads the stream parses as a single JSON object whose
top-level keys are exactly `idl`, `metadata`, `dest_crate` in that order,
with `dest_crate` an object of string fields `crate_name` (equal to
`<package>-<plugin>`) and `path`; and the trace shows stdin closed after
the write and before any wait on the child. -/
theorem claim2_handshake_wire_format (O : Oracle)
    (builder : JValue → String → Except String JCommand) (plugin : String)
    (wsMeta : JValue) (pkg : Package) (tr : List Event) (res : Except String Unit)
    (hs : String)
    (h : applyPluginModel O builder plugin wsMeta pkg = (tr, res))
    (hmem : Event.writeHandshake hs ∈ tr) :
    ∃ idl pm cratePath md cmd,
      hs = writeData (renderJson idl) (renderJson pm) (pkg.name ++ "-" ++ plugin)
        (renderUPath cratePath) ∧
      (plainValue idl = true → plainValue pm = true →
       plainString (pkg.name ++ "-" ++ plugin) = true →
       plainString (renderUPath cratePath) = true →
       parseJson (jsize idl + jsize pm + 8) hs =
         some (.obj [("idl", idl), ("metadata", pm),
           ("dest_crate", .obj [("crate_name", .str (pkg.name ++ "-" ++ plugin)),
                                ("path", .str (renderUPath cratePath))])])) ∧
      (tr = [Event.extractIdl pkg.name md (md.joinRel ["src", "lib.rs"]),
             .spawnPlugin cmd, .writeHandshake hs, .closeStdin] ∨
       tr = [Event.extractIdl pkg.name md (md.joinRel ["src", "lib.rs"]),
             .spawnPlugin cmd, .writeHandshake hs, .closeStdin, .waitChild]) := by
  have htr : tr = (applyPluginModel O builder plugin wsMeta pkg).1 := by rw [h]
  subst htr
  rcases applyPluginModel_trace_shapes O builder plugin wsMeta pkg with
    h0 | ⟨md, evs, hpar, htr2, hsh⟩
  · rw [h0] at hmem
    simp at hmem
  · rw [htr2] at hmem ⊢
    rcases List.mem_cons.mp hmem with heq | hmem2
    · exact absurd heq (by simp)
    · rcases hsh with rfl | ⟨cmd, rfl⟩ | ⟨cmd, idl, pm, cratePath, hcase⟩
      · simp at hmem2
      · simp at hmem2
      · have hhs : hs = writeData (renderJson idl) (renderJson pm)
            (pkg.name ++ "-" ++ plugin) (renderUPath cratePath) := by
          rcases hcase with rfl | rfl <;> simpa using hmem2
        have hparse : plainValue idl = true → plainValue pm = true →
            plainString (pkg.name ++ "-" ++ plugin) = true →
            plainString (renderUPath cratePath) = true →
            parseJson (jsize idl + jsize pm + 8) hs =
              some (.obj [("idl", idl), ("metadata", pm),
                ("dest_crate",
                 .obj [("crate_name", .str (pkg.name ++ "-" ++ plugin)),
                       ("path", .str (renderUPath cratePath))])]) := by
          intro h1 h2 h3 h4
          rw [hhs]
          simpa [hsEnvelope] using
            parse_writeData idl pm (pkg.name ++ "-" ++ plugin)
              (renderUPath cratePath) h1 h2 h3 h4
        rcases hcase with rfl | rfl
        · exact ⟨idl, pm, cratePath, md, cmd, hhs, hparse, Or.inl (by rw [hhs])⟩
        · exact ⟨idl, pm, cratePath, md, cmd, hhs, hparse, Or.inr (by rw [hhs])⟩

/-- witness for C2 on a fully successful concrete dispatch. -/
theorem claim2_handshake_wire_format_witness :
    ∃ idl pm cratePath md cmd,
      writeData (renderJson JValue.null) (renderJson JValue.null) "foo-java"
          (renderUPath ⟨["ws", "foo", "foo-java"]⟩) =
        writeData (renderJson idl) (renderJson pm) "foo-java"
          (renderUPath cratePath) ∧
      (plainValue idl = true → plainValue pm = true →
       plainString "foo-java" = true →
       plainString (renderUPath cratePath) = true →
       parseJson (jsize idl + jsize pm + 8)
           (writeData (renderJson JValue.null) (renderJson JValue.null) "foo-java"
             (renderUPath ⟨["ws", "foo", "foo-java"]⟩)) =
         some (.obj [("idl", idl), ("metadata", pm),
           ("dest_crate", .obj [("crate_name", .str "foo-java"),
                                ("path", .str (renderUPath cratePath))])])) ∧
      ((applyPluginModel ⟨fun _ _ _ => .ok .null, fun _ => .ok (), true, .ok (), .ok 0⟩
          defaultPluginCommand "java" .null
          ⟨"foo", ⟨["ws", "foo", "Cargo.toml"]⟩, none, .null⟩).1 =
        [Event.extractIdl "foo" md (md.joinRel ["src", "lib.rs"]),
         .spawnPlugin cmd,
         .writeHandshake (writeData (renderJson JValue.null) (renderJson JValue.null)
           "foo-java" (renderUPath ⟨["ws", "foo", "foo-java"]⟩)), .closeStdin] ∨
       (applyPluginModel ⟨fun _ _ _ => .ok .null, fun _ => .ok (), true, .ok (), .ok 0⟩
          defaultPluginCommand "java" .null
          ⟨"foo", ⟨["ws", "foo", "Cargo.toml"]⟩, none, .null⟩).1 =
        [Event.extractIdl "foo" md (md.joinRel ["src", "lib.rs"]),
         .spawnPlugin cmd,
         .writeHandshake (writeData (renderJson JValue.null) (renderJson JValue.null)
           "foo-java" (renderUPath ⟨["ws", "foo", "foo-java"]⟩)), .closeStdin,
         .waitChild]) :=
  claim2_handshake_wire_format
    ⟨fun _ _ _ => .ok .null, fun _ => .ok (), true, .ok (), .ok 0⟩
    defaultPluginCommand "java" .null
    ⟨"foo", ⟨["ws", "foo", "Cargo.toml"]⟩, none, .null⟩
    (applyPluginModel ⟨fun _ _ _ => .ok .null, fun _ => .ok (), true, .ok (), .ok 0⟩
      defaultPluginCommand "java" .null
      ⟨"foo", ⟨["ws", "foo", "Cargo.toml"]⟩, none, .null⟩).1
    (applyPluginModel ⟨fun _ _ _ => .ok .null, fun _ => .ok (), true, .ok (), .ok 0⟩
      defaultPluginCommand "java" .null
      ⟨"foo", ⟨["ws", "foo", "Cargo.toml"]⟩, none, .null⟩).2
    (writeData (renderJson JValue.null) (renderJson JValue.null) "foo-java"
      (renderUPath ⟨["ws", "foo", "foo-java"]⟩))
    rfl (by decide)

end CargoGluegun
